import Mathlib

/-!
Verification of the vt6.rs server core against its specification.

This file contains a shallow embedding, in Lean 4, of the parts of the
vt6 crate that the specification's checkable claims are about:

* the message wire codec (`src/common/core/msg/mod.rs` and `format.rs`):
  byte buffers are `List Nat` (one `Nat` per byte, values < 256), the
  streaming parser's `Cursor` is an explicit buffer/offset pair threaded
  through `Except`-valued consume functions;
* the argument codec (`src/common/core/encode_argument.rs` and
  `decode_argument.rs`);
* the identifier family (`src/common/core/identifiers.rs`);
* the connection state machine and handler chain
  (`src/server/connection.rs`, `src/server/core/msg.rs`,
  `src/server/core/handshake.rs`);
* the client-ID suffix encoding (`src/client/core/client_id.rs`).

Rust `usize` values live in `Nat` with explicit `2 ^ 64` bounds where
overflow matters; `u32` arithmetic that can wrap carries an explicit
`% 2 ^ 32`.  Fallible Rust code returning `Result`/`Option` is embedded
as `Except`/`Option`.
-/

set_option maxRecDepth 10000

/-- Bytes of an ASCII/UTF-8 string literal, one `Nat` per byte.  (All string
literals used in this development are pure ASCII, so each char is one byte.) -/
def strBytes (s : String) : List Nat := s.data.map (fun c => c.toNat)

/-- `usize::MAX + 1` on the 64-bit targets the crate is built for. -/
def USIZE : Nat := 2 ^ 64

/-- `vt6::common::core::msg::ParseErrorKind` (msg/mod.rs lines 30-54). -/
inductive ParseErrorKind where
  | unexpectedEOF
  | expectedMessageOpener
  | expectedMessageCloser
  | expectedDecimalNumber
  | decimalNumberTooLarge
  | decimalNumberHasLeadingZeroes
  | expectedListSigil
  | expectedStringSigil
  | expectedStringCloser
  | expectedMessageType
  | invalidMessageType
deriving DecidableEq, Repr

/-- `vt6::common::core::msg::ParseError` (msg/mod.rs lines 84-92).  The Rust
struct also carries a reference to the input buffer; the buffer is a parameter
of every parsing function here, so only the offset and the kind are kept. -/
structure ParseError where
  offset : Nat
  kind : ParseErrorKind
deriving DecidableEq, Repr

/-- `isnum` (msg/mod.rs line 223): ASCII decimal digit test. -/
def isnum (c : Nat) : Bool := 48 ≤ c && c ≤ 57

/-- Length of the longest all-digit run at the front of a byte list.  This is
the distance the `Cursor::consume_decimal` scan loop moves. -/
def spanDigits : List Nat → Nat
  | [] => 0
  | c :: r => if isnum c then spanDigits r + 1 else 0

/-- Numeric value of an ASCII digit string, most significant digit first
(what `digit_str.parse::<usize>()` computes when it does not overflow). -/
def digitsVal (l : List Nat) : Nat := l.foldl (fun a c => a * 10 + (c - 48)) 0

/-- `Cursor::current` (msg/mod.rs lines 136-142): the byte at the cursor, or
`UnexpectedEOF` at the current offset. -/
def currentByte (w : List Nat) (o : Nat) : Except ParseError Nat :=
  match (w.drop o).head? with
  | none => .error ⟨o, .unexpectedEOF⟩
  | some b => .ok b

/-- `Cursor::consume_char` (msg/mod.rs lines 144-150). -/
def consumeChar (w : List Nat) (o : Nat) (c : Nat) (kd : ParseErrorKind) :
    Except ParseError Nat :=
  match currentByte w o with
  | .error e => .error e
  | .ok b => if b = c then .ok (o + 1) else .error ⟨o, kd⟩

/-- `Cursor::consume_decimal` (msg/mod.rs lines 160-195).  Returns the parsed
value and the new offset.  The digit-scan loop leaves the cursor just past the
final digit, so the leading-zeroes and too-large errors are reported at offset
`o + span`, past the whole digit run. -/
def consumeDecimal (w : List Nat) (o : Nat) : Except ParseError (Nat × Nat) :=
  match (w.drop o).head? with
  | none => .error ⟨o, .unexpectedEOF⟩
  | some c0 =>
    let n := spanDigits (w.drop o)
    if n = 0 then .error ⟨o, .expectedDecimalNumber⟩
    else
      let ds := (w.drop o).take n
      if 1 < n ∧ c0 = 48 then .error ⟨o + n, .decimalNumberHasLeadingZeroes⟩
      else if digitsVal ds < USIZE then .ok (digitsVal ds, o + n)
      else .error ⟨o + n, .decimalNumberTooLarge⟩

/-- `Cursor::consume_string_contents` (msg/mod.rs lines 205-216).  The Rust
code detects both buffer overrun and `usize` wraparound of `offset + count`;
for `offset ≤ buffer.len()` and `count < 2^64` both conditions are equivalent
to the mathematical `o + count > w.length`, and in the error case the cursor
is moved to the end of the buffer before reporting `UnexpectedEOF`. -/
def consumeStringContents (w : List Nat) (o : Nat) (count : Nat) :
    Except ParseError (List Nat × Nat) :=
  if o + count > w.length then .error ⟨w.length, .unexpectedEOF⟩
  else .ok ((w.drop o).take count, o + count)

/-- One bytestring item: `MessageIterator::next_or_error` body
(msg/mod.rs lines 263-275), without the remaining-items counter. -/
def nextItem (w : List Nat) (o : Nat) : Except ParseError (List Nat × Nat) :=
  match consumeDecimal w o with
  | .error e => .error e
  | .ok (count, o1) =>
    match consumeChar w o1 58 .expectedStringSigil with
    | .error e => .error e
    | .ok o2 =>
      match consumeStringContents w o2 count with
      | .error e => .error e
      | .ok (s, o3) =>
        match consumeChar w o3 44 .expectedStringCloser with
        | .error e => .error e
        | .ok o4 => .ok (s, o4)

/-- `MessageIterator::consume_and_validate` (msg/mod.rs lines 277-283),
additionally materializing the items it walks over (the lazy public iterator
later yields exactly these byte slices, in this order). -/
def consumeItems : Nat → List Nat → Nat → Except ParseError (List (List Nat) × Nat)
  | 0, _, o => .ok ([], o)
  | k + 1, w, o =>
    match nextItem w o with
    | .error e => .error e
    | .ok (s, o1) =>
      match consumeItems k w o1 with
      | .error e => .error e
      | .ok (ss, o2) => .ok (s :: ss, o2)

/-- `is_ident_leader` (identifiers.rs lines 162-164): ASCII letter or `_`. -/
def isIdentLeader (c : Nat) : Bool :=
  (65 ≤ c && c ≤ 90) || (97 ≤ c && c ≤ 122) || c == 95

/-- `is_ident_char` (identifiers.rs lines 166-168): ASCII letter, `_` or `-`
(note: digits are not identifier characters in this revision). -/
def isIdentChar (c : Nat) : Bool := isIdentLeader c || c == 45

/-- Length of the longest run of identifier characters at the front. -/
def identSpan : List Nat → Nat
  | [] => 0
  | c :: r => if isIdentChar c then identSpan r + 1 else 0

/-- Helper for the integer `DecodeArgument` impls: all-digit check. -/
def allDigits (l : List Nat) : Bool := l.all isnum

/-- The digit part of Rust's integer `FromStr` (after an optional sign):
nonempty, all digits, and the resulting value within `[lo, hi]`. -/
def decodeIntDigits (lo hi : Int) (negSign : Bool) (r : List Nat) : Option Int :=
  if r ≠ [] ∧ allDigits r then
    let v : Int := if negSign then -(digitsVal r : Int) else (digitsVal r : Int)
    if lo ≤ v ∧ v ≤ hi then some v else none
  else none

/-- `impl_DecodeArgument_for_integer` (decode_argument.rs lines 59-77) for an
integer type with range `[lo, hi]`; `allowNeg` is true for the signed types
(whose `FromStr` accepts a `-` sign).  The checks are, in order: reject the
empty string; reject a leading zero unless the input is exactly `0`; then
`str::parse`, which accepts an optional `+` (or, when signed, `-`) sign
followed by one or more ASCII digits, and fails on overflow.  Any byte that is
not an ASCII digit or sign byte (in particular any byte ≥ 0x80, which covers
both non-ASCII UTF-8 and invalid UTF-8) makes the parse fail. -/
def decodeInt (allowNeg : Bool) (lo hi : Int) (l : List Nat) : Option Int :=
  if l = [] then none
  else if l ≠ [48] ∧ l.head? = some 48 then none
  else if l.head? = some 43 then decodeIntDigits lo hi false (l.drop 1)
  else if l.head? = some 45 then
    if allowNeg then decodeIntDigits lo hi true (l.drop 1) else none
  else decodeIntDigits lo hi false l

/-- `u16::decode` as used by the identifier parser: `DecodeArgument for u16`. -/
def decodeU16 (l : List Nat) : Option Nat :=
  match decodeInt false 0 65535 l with
  | some v => some v.toNat
  | none => none

/-- `parse_ident_or_module_ident` (identifiers.rs lines 127-160): returns
`none` when the input is neither, `some (name, none)` for a plain identifier
(in which case `name` is the whole input), and `some (name, some major)` for a
module identifier.  The scan consumes a leading identifier character, walks
over identifier characters, and splits at the first nonzero digit; any other
byte (including `0` as first version digit, and any non-ASCII byte) fails. -/
def parseIdentOrModuleIdent (l : List Nat) : Option (List Nat × Option Nat) :=
  match l with
  | [] => none
  | c :: rest =>
    if ¬ isIdentLeader c then none
    else
      let k := identSpan rest
      match (rest.drop k).head? with
      | none => some (l, none)
      | some d =>
        if isnum d ∧ d ≠ 48 then
          match decodeU16 (l.drop (k + 1)) with
          | some v => if v = 0 then none else some (l.take (k + 1), some v)
          | none => none
        else none

/-- `vt6::common::core::ModuleIdentifier` (identifiers.rs lines 184-188). -/
structure ModuleIdentV where
  source : List Nat
  name : List Nat
  major : Nat
deriving DecidableEq, Repr

/-- `ModuleIdentifier::parse` (identifiers.rs lines 211-220). -/
def moduleIdentParse (l : List Nat) : Option ModuleIdentV :=
  match parseIdentOrModuleIdent l with
  | some (nm, some v) => some ⟨l, nm, v⟩
  | _ => none

/-- `Identifier::parse` (identifiers.rs lines 113-118). -/
def identifierParse (l : List Nat) : Option (List Nat) :=
  match parseIdentOrModuleIdent l with
  | some (_, none) => some l
  | _ => none

/-- `vt6::common::core::ScopedIdentifier` (identifiers.rs lines 351-355). -/
structure ScopedIdentV where
  source : List Nat
  modId : ModuleIdentV
  member : List Nat
deriving DecidableEq, Repr

/-- `ScopedIdentifier::parse` (identifiers.rs lines 378-386): split at the
first `.` byte; the left part must be a module identifier and the right part a
plain identifier. -/
def scopedIdentParse (l : List Nat) : Option ScopedIdentV :=
  match l.findIdx? (fun c => c == 46) with
  | none => none
  | some i =>
    match moduleIdentParse (l.take i), identifierParse (l.drop (i + 1)) with
    | some m, some mem => some ⟨l, m, mem⟩
    | _, _ => none

/-- `vt6::common::core::MessageType` (identifiers.rs lines 428-434). -/
inductive MessageTypeV where
  | init
  | want
  | have
  | nope
  | scoped (s : ScopedIdentV)
deriving DecidableEq, Repr

/-- `MessageType::parse` (identifiers.rs lines 452-460), composed with the
`core::str::from_utf8` check done by `Message::parse`: every accepting path of
the identifier grammar is pure ASCII, and any byte sequence that is not valid
UTF-8 contains a byte ≥ 0x80, which already fails the byte-level grammar, so
no separate UTF-8 validity test is needed. -/
def messageTypeParse (l : List Nat) : Option MessageTypeV :=
  if l = strBytes "init" then some .init
  else if l = strBytes "want" then some .want
  else if l = strBytes "have" then some .have
  else if l = strBytes "nope" then some .nope
  else (scopedIdentParse l).map .scoped

/-- `MessageType::as_str` (identifiers.rs lines 464-472), as bytes. -/
def msgTypeStr : MessageTypeV → List Nat
  | .init => strBytes "init"
  | .want => strBytes "want"
  | .have => strBytes "have"
  | .nope => strBytes "nope"
  | .scoped s => s.source

/-- A parsed `vt6::common::core::msg::Message` (msg/mod.rs lines 372-376):
the parsed type plus the argument byte slices its iterator yields. -/
structure MessageV where
  type : MessageTypeV
  args : List (List Nat)
deriving DecidableEq, Repr

/-- `Message::parse` (msg/mod.rs lines 385-412): consume `{`, the item count,
`|`; the first item must exist (else `ExpectedMessageType`) and be a valid
message type (else `InvalidMessageType`, both reported at the iterator cursor,
which is past the first item's closing `,`); validate the remaining items;
consume `}`.  On success, returns the message and the consumed byte count. -/
def messageParse (w : List Nat) : Except ParseError (MessageV × Nat) :=
  match consumeChar w 0 123 .expectedMessageOpener with
  | .error e => .error e
  | .ok o0 =>
    match consumeDecimal w o0 with
    | .error e => .error e
    | .ok (countItems, o1) =>
      match consumeChar w o1 124 .expectedListSigil with
      | .error e => .error e
      | .ok o2 =>
        match countItems with
        | 0 => .error ⟨o2, .expectedMessageType⟩
        | rest + 1 =>
          match nextItem w o2 with
          | .error e => .error e
          | .ok (t, o3) =>
            match messageTypeParse t with
            | none => .error ⟨o3, .invalidMessageType⟩
            | some mt =>
              match consumeItems rest w o3 with
              | .error e => .error e
              | .ok (args, o4) =>
                match consumeChar w o4 125 .expectedMessageCloser with
                | .error e => .error e
                | .ok o5 => .ok (⟨mt, args⟩, o5)

instance {ε α : Type} [DecidableEq ε] [DecidableEq α] : DecidableEq (Except ε α)
  | .error e, .error f =>
    if h : e = f then .isTrue (by rw [h]) else .isFalse (by simp [h])
  | .error _, .ok _ => .isFalse (by simp)
  | .ok _, .error _ => .isFalse (by simp)
  | .ok a, .ok b =>
    if h : a = b then .isTrue (by rw [h]) else .isFalse (by simp [h])

/-- Structurally recursive worker for `getSizeNat` (the fuel only bounds the
recursion depth; `getSizeNat_eq` below recovers the natural equation). -/
def getSizeNatGo : Nat → Nat → Nat
  | 0, _ => 1
  | fuel + 1, n => if n ≤ 9 then 1 else getSizeNatGo fuel (n / 10) + 1

/-- `get_size` of the integer `EncodeArgument` impls (encode_argument.rs lines
134-150) applied to a nonnegative magnitude: the digit-count loop. -/
def getSizeNat (n : Nat) : Nat := getSizeNatGo (n + 1) n

/-- Structurally recursive worker for `encDec` (the fuel only bounds the
recursion depth; `encDec_eq` below recovers the natural equation). -/
def encDecGo : Nat → Nat → List Nat
  | 0, n => [48 + n]
  | fuel + 1, n => if n ≤ 9 then [48 + n] else encDecGo fuel (n / 10) ++ [48 + n % 10]

/-- The byte string written by the integer `encode` (encode_argument.rs lines
152-176) for a nonnegative magnitude: decimal ASCII digits, most significant
first (the Rust loop fills the buffer from the back with `val % 10`). -/
def encDec (n : Nat) : List Nat := encDecGo (n + 1) n

/-- `EncodeArgument` for a signed/unsigned integer value: optional `-` sign
followed by the decimal digits of the absolute value (the Rust code obtains
the magnitude of a negative value by two's-complement negation in the
unsigned conversion type, which equals `natAbs` for every in-range value). -/
def encInt (v : Int) : List Nat :=
  (if v < 0 then [45] else []) ++ encDec v.natAbs

/-- `get_size` for a signed/unsigned integer value (one extra byte for the
minus sign of a negative value). -/
def getSizeInt (v : Int) : Nat :=
  getSizeNat v.natAbs + (if v < 0 then 1 else 0)

/-- The bytes `MessageFormatter::add_argument` (format.rs lines 56-67) appends
for an argument with encoding `a`: `<len>:<bytes>,`. -/
def argChunk (a : List Nat) : List Nat :=
  encDec a.length ++ [58] ++ a ++ [44]

/-- `vt6::common::core::msg::MessageFormatter` (format.rs lines 15-19), for a
buffer at least as large as the message: `out` is the byte stream written so
far (`cursor = out.length`) and `remaining` is `remaining_arguments`. -/
structure FormatterV where
  out : List Nat
  remaining : Nat
deriving DecidableEq, Repr

/-- `MessageFormatter::add_argument` (format.rs lines 56-67).  `none` models
the panic when more arguments are added than announced. -/
def fmtAddArgument (f : FormatterV) (a : List Nat) : Option FormatterV :=
  if f.remaining = 0 then none
  else some ⟨f.out ++ argChunk a, f.remaining - 1⟩

/-- `MessageFormatter::new` (format.rs lines 26-48): write `{`, the announced
item count (arguments plus one for the type), `|`, then add the type name as
the first item. -/
def fmtNew (typeName : List Nat) (numArguments : Nat) : Option FormatterV :=
  fmtAddArgument ⟨[123] ++ encDec (numArguments + 1) ++ [124], numArguments + 1⟩ typeName

/-- `MessageFormatter::finalize` (format.rs lines 78-88) on a sufficiently
large buffer: write `}` and return the bytes written.  `none` models the
panic when not all announced arguments were added. -/
def fmtFinalize (f : FormatterV) : Option (List Nat) :=
  if f.remaining = 0 then some (f.out ++ [125]) else none

/-- Folding `add_argument` over a list of argument encodings. -/
def fmtAddAll (f : FormatterV) : List (List Nat) → Option FormatterV
  | [] => some f
  | a :: rest =>
    match fmtAddArgument f a with
    | none => none
    | some f1 => fmtAddAll f1 rest

/-- The complete `new` / `add_argument`* / `finalize` sequence. -/
def formatMessage (typeName : List Nat) (args : List (List Nat)) : Option (List Nat) :=
  match fmtNew typeName args.length with
  | none => none
  | some f =>
    match fmtAddAll f args with
    | none => none
    | some f1 => fmtFinalize f1

/-- The byte string `formatMessage` produces (shown below to coincide). -/
def formatBytes (typeName : List Nat) (args : List (List Nat)) : List Nat :=
  [123] ++ encDec (args.length + 1) ++ [124] ++ argChunk typeName
    ++ (args.map argChunk).flatten ++ [125]

/-- Byte-level UTF-8 validity, as checked by `core::str::from_utf8` (used by
the `DecodeArgument` impl for `&str` and by message decoders with `&str`
fields).  The cases follow the standard UTF-8 byte-range table, including the
rejection of overlong encodings and surrogates. -/
def utf8Valid : List Nat → Bool
  | [] => true
  | c :: rest =>
    if c ≤ 127 then utf8Valid rest
    else if 194 ≤ c ∧ c ≤ 223 then
      match rest with
      | c2 :: r => (128 ≤ c2 && c2 ≤ 191) && utf8Valid r
      | [] => false
    else if c = 224 then
      match rest with
      | c2 :: c3 :: r => (160 ≤ c2 && c2 ≤ 191) && (128 ≤ c3 && c3 ≤ 191) && utf8Valid r
      | _ => false
    else if 225 ≤ c ∧ c ≤ 236 then
      match rest with
      | c2 :: c3 :: r => (128 ≤ c2 && c2 ≤ 191) && (128 ≤ c3 && c3 ≤ 191) && utf8Valid r
      | _ => false
    else if c = 237 then
      match rest with
      | c2 :: c3 :: r => (128 ≤ c2 && c2 ≤ 159) && (128 ≤ c3 && c3 ≤ 191) && utf8Valid r
      | _ => false
    else if 238 ≤ c ∧ c ≤ 239 then
      match rest with
      | c2 :: c3 :: r => (128 ≤ c2 && c2 ≤ 191) && (128 ≤ c3 && c3 ≤ 191) && utf8Valid r
      | _ => false
    else if c = 240 then
      match rest with
      | c2 :: c3 :: c4 :: r =>
        (144 ≤ c2 && c2 ≤ 191) && (128 ≤ c3 && c3 ≤ 191) && (128 ≤ c4 && c4 ≤ 191) && utf8Valid r
      | _ => false
    else if 241 ≤ c ∧ c ≤ 243 then
      match rest with
      | c2 :: c3 :: c4 :: r =>
        (128 ≤ c2 && c2 ≤ 191) && (128 ≤ c3 && c3 ≤ 191) && (128 ≤ c4 && c4 ≤ 191) && utf8Valid r
      | _ => false
    else if c = 244 then
      match rest with
      | c2 :: c3 :: c4 :: r =>
        (128 ≤ c2 && c2 ≤ 143) && (128 ≤ c3 && c3 ≤ 191) && (128 ≤ c4 && c4 ≤ 191) && utf8Valid r
      | _ => false
    else false

/-- `EncodeArgument for bool` (encode_argument.rs lines 101-109). -/
def encBool (b : Bool) : List Nat := if b then [116] else [102]

/-- `DecodeArgument for bool` (decode_argument.rs lines 27-35): only the
literal bytes `t` and `f` decode. -/
def decodeBool (l : List Nat) : Option Bool :=
  if l = [116] then some true else if l = [102] then some false else none

/-- `DecodeArgument for &str` (decode_argument.rs lines 43-47), returning the
byte content of the `&str` (a str value is exactly its UTF-8 bytes). -/
def decodeStr (l : List Nat) : Option (List Nat) :=
  if utf8Valid l then some l else none

/-- `DecodeArgument for &[u8]` (decode_argument.rs lines 37-41). -/
def decodeBytes (l : List Nat) : Option (List Nat) := some l

/-- `EncodeArgument for Option<&T>` (encode_argument.rs lines 111-126):
`None` encodes as the empty bytestring. -/
def encOpt (enc : α → List Nat) : Option α → List Nat
  | none => []
  | some v => enc v

/-- `DecodeArgument for Option<T>` (decode_argument.rs lines 49-57): the empty
input decodes as `None`, anything else through the inner decoder. -/
def decodeOpt (dec : List Nat → Option α) (l : List Nat) : Option (Option α) :=
  if l = [] then some none
  else
    match dec l with
    | some v => some (some v)
    | none => none

/-- The twelve integer instantiations of the decode macro
(decode_argument.rs line 90), with their Rust ranges (64-bit target). -/
def decodeI8 : List Nat → Option Int := decodeInt true (-(2 ^ 7)) (2 ^ 7 - 1)

def decodeU8 : List Nat → Option Int := decodeInt false 0 (2 ^ 8 - 1)

def decodeI16 : List Nat → Option Int := decodeInt true (-(2 ^ 15)) (2 ^ 15 - 1)

def decodeU16Arg : List Nat → Option Int := decodeInt false 0 (2 ^ 16 - 1)

def decodeI32 : List Nat → Option Int := decodeInt true (-(2 ^ 31)) (2 ^ 31 - 1)

def decodeU32 : List Nat → Option Int := decodeInt false 0 (2 ^ 32 - 1)

def decodeI64 : List Nat → Option Int := decodeInt true (-(2 ^ 63)) (2 ^ 63 - 1)

def decodeU64 : List Nat → Option Int := decodeInt false 0 (2 ^ 64 - 1)

def decodeI128 : List Nat → Option Int := decodeInt true (-(2 ^ 127)) (2 ^ 127 - 1)

def decodeU128 : List Nat → Option Int := decodeInt false 0 (2 ^ 128 - 1)

def decodeIsize : List Nat → Option Int := decodeInt true (-(2 ^ 63)) (2 ^ 63 - 1)

def decodeUsize : List Nat → Option Int := decodeInt false 0 (2 ^ 64 - 1)

/-- `u32::MAX + 1`, for the wrapping `num + 1` in the client-ID encoder. -/
def U32 : Nat := 2 ^ 32

/-- `LOOKUP_TABLE` (client_id.rs lines 157-162): `0-9`, `A-Z`, `a-z`. -/
def lookupList : List Nat :=
  [48, 49, 50, 51, 52, 53, 54, 55, 56, 57,
   65, 66, 67, 68, 69, 70, 71, 72, 73, 74, 75, 76, 77, 78, 79, 80,
   81, 82, 83, 84, 85, 86, 87, 88, 89, 90,
   97, 98, 99, 100, 101, 102, 103, 104, 105, 106, 107, 108, 109, 110,
   111, 112, 113, 114, 115, 116, 117, 118, 119, 120, 121, 122]

def lookupByte (n : Nat) : Nat := lookupList.getD n 0

/-- `get_size_for_number` (client_id.rs lines 150-155): `1 + (num + 1) / 61`,
where `num + 1` is u32 arithmetic (hence the explicit wrap, which matters only
for `num = u32::MAX` in a release build). -/
def getSizeForNumber (num : Nat) : Nat := 1 + ((num + 1) % U32) / 61

/-- The loop body of `encode_number` (client_id.rs lines 164-175): one output
byte per buffer slot; while at least 61 remains, emit the continuation marker
`z` and subtract 61, otherwise emit `LOOKUP_TABLE[num]`. -/
def encNumberGo : Nat → Nat → List Nat
  | _, 0 => []
  | n, k + 1 =>
    if 61 ≤ n then 122 :: encNumberGo (n - 61) k else lookupByte n :: encNumberGo n k

/-- `encode_number` (client_id.rs lines 164-175) into its
`get_size_for_number`-sized buffer; the shift by one accounts for the omitted
codeword `0`. -/
def encNumber (num : Nat) : List Nat :=
  encNumberGo ((num + 1) % U32) (getSizeForNumber num)

/-- `vt6::client::core::ClientIDSuffix` (client_id.rs lines 62-80). -/
inductive ClientIDSuffixV where
  | own
  | localLifetime (i : Nat)
  | job (i : Nat)
  | child (i j : Nat)
deriving DecidableEq, Repr

/-- `ClientIDSuffix::get_size` (client_id.rs lines 102-109). -/
def suffixSize : ClientIDSuffixV → Nat
  | .own => 0
  | .localLifetime i => 1 + getSizeForNumber i
  | .job i => getSizeForNumber i
  | .child i j => getSizeForNumber i + getSizeForNumber j

/-- `ClientIDSuffix::encode` (client_id.rs lines 111-125). -/
def suffixEncode : ClientIDSuffixV → List Nat
  | .own => []
  | .localLifetime i => lookupByte 0 :: encNumber i
  | .job i => encNumber i
  | .child i j => encNumber i ++ encNumber j

/-- `RelativeClientID::encode` (client_id.rs lines 33-43): the base client ID
followed by the suffix encoding. -/
def relativeEncode (base : List Nat) (s : ClientIDSuffixV) : List Nat :=
  base ++ suffixEncode s

/-- `RelativeClientID::get_size` (client_id.rs lines 34-36). -/
def relativeSize (base : List Nat) (s : ClientIDSuffixV) : Nat :=
  base.length + suffixSize s

/-- `is_client_id_char` (identifiers.rs lines 74-76). -/
def isClientIdChar (c : Nat) : Bool :=
  (65 ≤ c && c ≤ 90) || (97 ≤ c && c ≤ 122) || (48 ≤ c && c ≤ 57)

/-- `ClientID::parse` (identifiers.rs lines 56-65): nonempty, all characters
alphanumeric ASCII.  (The accepting path is pure ASCII, so the byte-level
check coincides with the char-level one.) -/
def clientIDParse (l : List Nat) : Option (List Nat) :=
  if l = [] then none
  else if l.all isClientIdChar then some l else none

/-- `vt6::server::ClientIdentity` (auth.rs lines 22-27). -/
structure ClientIdentityV where
  clientId : List Nat
  stdinScreenId : Option (List Nat)
  stdoutScreenId : Option (List Nat)
  stderrScreenId : Option (List Nat)
deriving DecidableEq, Repr

/-- `ClientSelector` as used by server/core/msg.rs (its definition is not in
the given sources). -/
inductive ClientSelectorV where
  | atOrBelow (p : List Nat)
  | strictlyBelow (p : List Nat)
deriving DecidableEq, Repr

/-- Modelled from the spec: `ClientSelector::contains` — "AtOrBelow(p) matches
any ClientID equal to p or having p as a strict prefix; StrictlyBelow(p)
matches only strict prefixes" (glossary), i.e. prefix and strict prefix. -/
def selectorContains : ClientSelectorV → List Nat → Bool
  | .atOrBelow p, c => c.take p.length == p
  | .strictlyBelow p, c => (c.take p.length == p) && c != p

/-- The slice of `vt6::server::Application` (application.rs lines 64-97) that
the modeled handlers call, as plain functions: `authorize_*` return the
identity for a secret (or `None`), `has_clients` tests a selector, and
`registerSecret` is `register_client(...).secret()`. -/
structure AppV where
  authorizeClient : List Nat → Option ClientIdentityV
  authorizeStdin : List Nat → Option (List Nat)
  authorizeStdout : List Nat → Option (List Nat)
  hasClients : ClientSelectorV → Bool
  registerSecret : ClientIdentityV → List Nat

/-- `vt6::server::Notification` (notification.rs lines 17-30), restricted to
the variant the modeled code paths emit. -/
inductive NotificationV where
  | incomingBytesDiscarded (bytes : List Nat)
deriving DecidableEq, Repr

/-- The only broadcast action shape the crate enqueues: the closure built by
the `core1.lifetime-end` branch (server/core/msg.rs lines 123-130), which
tears down every msgio connection whose client ID is at or below the given
one. -/
inductive BroadcastV where
  | teardownAtOrBelow (clientId : List Nat)
deriving DecidableEq, Repr

/-- `vt6::server::ConnectionState` (connection.rs lines 14-27).  The msgio
connector is its `ClientIdentity`; the stdout connector is modeled by the list
of byte chunks it has received. -/
inductive ConnStateV where
  | handshake
  | msgio (identity : ClientIdentityV)
  | stdin (screenId : List Nat)
  | stdout (received : List (List Nat))
  | teardown
deriving DecidableEq, Repr

/-- `ConnectionState::can_receive_messages` (connection.rs lines 48-50). -/
def canReceiveMessages : ConnStateV → Bool
  | .handshake => true
  | .msgio _ => true
  | _ => false

/-- A `vt6::server::Connection` (connection.rs lines 97-101) together with its
observable effects: the encoded messages enqueued on it (in order), the
notifications sent to the Application, and the broadcast actions enqueued on
the dispatch. -/
structure ConnV where
  state : ConnStateV
  sent : List (List Nat)
  notifications : List NotificationV
  broadcasts : List BroadcastV
deriving DecidableEq, Repr

/-- Modelled from the spec: the current revision's `HandlerError` enum is not
under src/ (server/handler.rs is an older revision); spec §4.3 gives exactly
these two variants. -/
inductive HandlerErrorV where
  | invalidMessage
  | unknownMessageType
deriving DecidableEq, Repr

/-- `Dispatch::enqueue_message` (server/tokio/dispatch.rs lines 313-360), seen
from the connection: the encoded message is appended to the outbound queue.
(The modeled code paths only call it in states where it is allowed.) -/
def enqueueMessage (c : ConnV) (bytes : List Nat) : ConnV :=
  { c with sent := c.sent ++ [bytes] }

/-- Modelled from the spec: `ModuleIdentifier::with_minor_version` is not
under src/; per the wire table a positive `have` argument is
`<module>.<minor>` (e.g. `core1.0`). -/
def withMinorVersion (m : ModuleIdentV) (minor : Nat) : List Nat :=
  m.source ++ 46 :: encDec minor

/-- `Have` encoding (msg/mod.rs lines 61-70), for the reply shape built in
connection.rs lines 220-224: `ThisModule` for a supported minor version,
`NotThisModule` otherwise. -/
def encodeHave (m : ModuleIdentV) : Option Nat → List Nat
  | some v => formatBytes (strBytes "have") [withMinorVersion m v]
  | none => formatBytes (strBytes "have") [m.source]

/-- Modelled from the spec: connection.rs uses `Nope(msg.parsed_type())`,
whose struct is not under src/ in that revision; the wire table gives
`nope <message-type>` (e.g. `{2|4:nope,9:core1.set,}`). -/
def encodeNopeOfType (mt : MessageTypeV) : List Nat :=
  formatBytes (strBytes "nope") [msgTypeStr mt]

/-- The argument-less `Nope` encoding (msg/mod.rs lines 88-92), used by the
core message handler's denial replies. -/
def encodeNopeBare : List Nat := formatBytes (strBytes "nope") []

/-- `Option<&T>` encoding specialized to bytestrings (absent = empty). -/
def optBytes : Option (List Nat) → List Nat
  | none => []
  | some s => s

/-- `ServerHello` encoding (posix.rs lines 99-108); absent screen IDs encode
as empty bytestrings. -/
def encodeServerHello (id : ClientIdentityV) : List Nat :=
  formatBytes (strBytes "posix1.server-hello")
    [id.clientId, optBytes id.stdinScreenId, optBytes id.stdoutScreenId,
     optBytes id.stderrScreenId]

/-- `ClientNew` encoding (src/msg/core.rs lines 61-67). -/
def encodeClientNew (secret : List Nat) : List Nat :=
  formatBytes (strBytes "core1.client-new") [secret]

/-- `Want::decode_message` (msg/mod.rs lines 20-28): type must be `want`, and
`exactly1` requires exactly one argument, decoded as a `ModuleIdentifier`. -/
def decodeWant (m : MessageV) : Option ModuleIdentV :=
  if m.type = .want then
    match m.args with
    | [a] => moduleIdentParse a
    | _ => none
  else none

/-- The hello-message decoders (posix.rs): type check by name, then `exactly1`
with a `&str` secret (which must be valid UTF-8). -/
def decodeHelloSecret (typeName : List Nat) (m : MessageV) : Option (List Nat) :=
  if msgTypeStr m.type = typeName then
    match m.args with
    | [a] => decodeStr a
    | _ => none
  else none

/-- A decoded `core1.client-make` message (src/msg/core.rs lines 11-16). -/
structure ClientMakeV where
  clientId : List Nat
  stdinScreenId : Option (List Nat)
  stdoutScreenId : Option (List Nat)
  stderrScreenId : Option (List Nat)
deriving DecidableEq, Repr

/-- `ClientMake::decode_message` (src/msg/core.rs lines 18-32): type check,
then `exactly4` of a ClientID and three `Option<&str>` screen IDs. -/
def decodeClientMake (m : MessageV) : Option ClientMakeV :=
  if msgTypeStr m.type = strBytes "core1.client-make" then
    match m.args with
    | [a, b, c, d] =>
      match clientIDParse a, decodeOpt decodeStr b, decodeOpt decodeStr c,
          decodeOpt decodeStr d with
      | some cid, some sin, some sout, some serr => some ⟨cid, sin, sout, serr⟩
      | _, _, _, _ => none
    | _ => none
  else none

/-- `LifetimeEnd::decode_message` as used by server/core/msg.rs line 111 (the
message struct itself is not under src/ in that revision; src/msg/core.rs has
the same shape under the name `ClientEnd`, and the spec's wire table gives
`core1.lifetime-end <cid>`): type check, then `exactly1` ClientID. -/
def decodeLifetimeEnd (m : MessageV) : Option (List Nat) :=
  if msgTypeStr m.type = strBytes "core1.lifetime-end" then
    match m.args with
    | [a] => clientIDParse a
    | _ => none
  else none

/-- `get_supported_module_version` of the modeled msgio handler chain:
`vt6::server::core::MessageHandler` (server/core/msg.rs lines 44-50) answers
`core1 -> 0` and defers to its inner handler, here the baseline reject
terminator, which supports nothing. -/
def chainSupported (moduleSource : List Nat) : Option Nat :=
  if moduleSource = strBytes "core1" then some 0 else none

/-- `Handler::handle` of `vt6::server::core::MessageHandler`
(server/core/msg.rs lines 55-135) over the baseline reject terminator (which
always returns `UnknownMessageType`, per spec §4.3).  On an error the
connection is unchanged (the Rust error paths return before mutating).  The
`message_connector().unwrap()` calls only happen on msgio connections, where
the state carries the identity. -/
def coreHandle (app : AppV) (m : MessageV) (c : ConnV) : Except HandlerErrorV ConnV :=
  if msgTypeStr m.type = strBytes "want" then
    match decodeWant m with
    | none => .error .invalidMessage
    | some moduleId =>
      .ok (enqueueMessage c (encodeHave moduleId (chainSupported moduleId.source)))
  else if msgTypeStr m.type = strBytes "core1.client-make" then
    match decodeClientMake m with
    | none => .error .invalidMessage
    | some cm =>
      match c.state with
      | .msgio identity =>
        if ¬ selectorContains (.strictlyBelow identity.clientId) cm.clientId = true then
          .ok (enqueueMessage c encodeNopeBare)
        else if app.hasClients (.atOrBelow cm.clientId) then
          .ok (enqueueMessage c encodeNopeBare)
        else
          .ok (enqueueMessage c (encodeClientNew (app.registerSecret
            ⟨cm.clientId, cm.stdinScreenId, cm.stdoutScreenId, cm.stderrScreenId⟩)))
      | _ => .error .invalidMessage
  else if msgTypeStr m.type = strBytes "core1.lifetime-end" then
    match decodeLifetimeEnd m with
    | none => .error .invalidMessage
    | some cid =>
      match c.state with
      | .msgio identity =>
        if ¬ selectorContains (.strictlyBelow identity.clientId) cid = true then
          .ok (enqueueMessage c encodeNopeBare)
        else
          .ok { c with broadcasts := c.broadcasts ++ [.teardownAtOrBelow cid] }
      | _ => .error .invalidMessage
  else
    .error .unknownMessageType

/-- `Handler::handle` of `vt6::server::core::HandshakeHandler`
(server/core/handshake.rs lines 29-67) over the baseline handshake reject
terminator (which, per spec §4.3, rejects everything that reaches it). -/
def handshakeHandle (app : AppV) (m : MessageV) (c : ConnV) : Except HandlerErrorV ConnV :=
  if msgTypeStr m.type = strBytes "posix1.stdin-hello" then
    match decodeHelloSecret (strBytes "posix1.stdin-hello") m with
    | none => .error .invalidMessage
    | some secret =>
      match app.authorizeStdin secret with
      | none => .error .invalidMessage
      | some screenId => .ok { c with state := .stdin screenId }
  else if msgTypeStr m.type = strBytes "posix1.stdout-hello" then
    match decodeHelloSecret (strBytes "posix1.stdout-hello") m with
    | none => .error .invalidMessage
    | some secret =>
      match app.authorizeStdout secret with
      | none => .error .invalidMessage
      | some _ => .ok { c with state := .stdout [] }
  else if msgTypeStr m.type = strBytes "posix1.client-hello" then
    match decodeHelloSecret (strBytes "posix1.client-hello") m with
    | none => .error .invalidMessage
    | some secret =>
      match app.authorizeClient secret with
      | none => .error .invalidMessage
      | some identity =>
        .ok (enqueueMessage { c with state := .msgio identity } (encodeServerHello identity))
  else
    .error .unknownMessageType

/-- The result dispatch of `Connection::handle_incoming_msgio` on a parsed
message (connection.rs lines 203-232): a handler success stands; any handler
error during handshake tears the connection down; on a msgio socket,
`InvalidMessage` answers with `nope` and `UnknownMessageType` answers with the
baseline `have` (for a scoped type) or `nope` (for an eternal type). -/
def processHandled (isHandshake : Bool) (m : MessageV) (res : Except HandlerErrorV ConnV)
    (c : ConnV) : ConnV :=
  match res, isHandshake with
  | .ok c1, _ => c1
  | .error _, true => { c with state := .teardown }
  | .error .invalidMessage, false => enqueueMessage c (encodeNopeOfType m.type)
  | .error .unknownMessageType, false =>
    match m.type with
    | .scoped s => enqueueMessage c (encodeHave s.modId (chainSupported s.modId.source))
    | mt => enqueueMessage c (encodeNopeOfType mt)

/-- The resync length after a parse error (connection.rs lines 249-256):
position of the next `{` strictly after offset 0, or the whole buffer. -/
def resyncLen (buf : List Nat) : Nat :=
  match (buf.drop 1).findIdx? (fun b => b == 123) with
  | some i => i + 1
  | none => buf.length

/-- The parse-error branch of `Connection::handle_incoming_msgio`
(connection.rs lines 239-262): the chain's `handle_error` (which only logs in
the modeled chains), the handshake teardown check, and the
IncomingBytesDiscarded notification for the resync slice.  Returns the new
connection and the number of bytes to discard. -/
def processParseError (c : ConnV) (buf : List Nat) : ConnV × Nat :=
  let c1 := if c.state = .handshake then { c with state := .teardown } else c
  let n := resyncLen buf
  ({ c1 with notifications := c1.notifications ++ [.incomingBytesDiscarded (buf.take n)] }, n)

/-- `Connection::handle_incoming` (connection.rs lines 173-197) together with
`handle_incoming_msgio` (lines 199-267), as a fuel-indexed loop: each msgio
iteration either returns (to wait for more bytes) or discards at least one
byte and loops.  The fuel only bounds the iteration count; the wrapper below
supplies enough fuel for the discard-driven loop to always run to completion
(shown by `handleIncomingFuel_irrel`). -/
def handleIncomingFuel (app : AppV) : Nat → ConnV → List Nat → ConnV × List Nat
  | 0, c, buf => (c, buf)
  | fuel + 1, c, buf =>
    if buf = [] then (c, buf)
    else
      match c.state with
      | .handshake =>
        match messageParse buf with
        | .ok (m, n) =>
          handleIncomingFuel app fuel
            (processHandled true m (handshakeHandle app m c) c) (buf.drop n)
        | .error e =>
          if e.kind = .unexpectedEOF then (c, buf)
          else
            let r := processParseError c buf
            handleIncomingFuel app fuel r.1 (buf.drop r.2)
      | .msgio _ =>
        match messageParse buf with
        | .ok (m, n) =>
          handleIncomingFuel app fuel
            (processHandled false m (coreHandle app m c) c) (buf.drop n)
        | .error e =>
          if e.kind = .unexpectedEOF then (c, buf)
          else
            let r := processParseError c buf
            handleIncomingFuel app fuel r.1 (buf.drop r.2)
      | .stdin _ =>
        ({ c with
            state := ConnStateV.teardown
            notifications := c.notifications ++ [.incomingBytesDiscarded buf] }, [])
      | .stdout received =>
        ({ c with state := .stdout (received ++ [buf]) }, [])
      | .teardown => (c, buf)

/-- `Connection::handle_incoming` proper: the loop with sufficient fuel. -/
def handleIncoming (app : AppV) (c : ConnV) (buf : List Nat) : ConnV × List Nat :=
  handleIncomingFuel app (buf.length + 1) c buf

/-- The broadcast closure built by the `core1.lifetime-end` handler
(server/core/msg.rs lines 123-130), applied to one connection. -/
def runBroadcast (b : BroadcastV) (c : ConnV) : ConnV :=
  match b with
  | .teardownAtOrBelow cid =>
    match c.state with
    | .msgio identity =>
      if selectorContains (.atOrBelow cid) identity.clientId then
        { c with state := .teardown }
      else c
    | _ => c

/-- One step of the connection/dispatcher system on a single connection:
bytes arriving from the socket (message handling and parse-error handling),
execution of a queued broadcast action, or the dispatcher's maintenance sweep
(`InnerDispatch::do_maintenance_on_conn`, server/tokio/dispatch.rs lines
136-160, which aborts the jobs and removes a Teardown connection but never
modifies the connection itself). -/
inductive ConnStep (app : AppV) : ConnV → ConnV → Prop where
  | incoming (c : ConnV) (buf : List Nat) : ConnStep app c (handleIncoming app c buf).1
  | broadcast (c : ConnV) (b : BroadcastV) : ConnStep app c (runBroadcast b c)
  | maintenance (c : ConnV) : ConnStep app c c

/-- An application that authorizes nothing (used for concrete scenarios). -/
def noApp : AppV := ⟨fun _ => none, fun _ => none, fun _ => none, fun _ => false, fun _ => []⟩

/-- A sample msgio identity with client ID `a`. -/
def sampleIdentity : ClientIdentityV := ⟨ strBytes "a", none, none, none⟩

/-- A connection in the given state with no recorded effects yet. -/
def freshConn (st : ConnStateV) : ConnV := ⟨st, [], [], []⟩

theorem encDecGo_irrel (fuel : Nat) : ∀ fuel2 n : Nat, n < fuel → n < fuel2 →
    encDecGo fuel n = encDecGo fuel2 n := by
  induction fuel with
  | zero => omega
  | succ f ih =>
    intro fuel2 n h h2
    cases fuel2 with
    | zero => omega
    | succ f2 =>
      simp only [encDecGo]
      split
      · rfl
      · rw [ih f2 (n / 10) (by omega) (by omega)]

theorem encDec_eq (n : Nat) :
    encDec n = if n ≤ 9 then [48 + n] else encDec (n / 10) ++ [48 + n % 10] := by
  show encDecGo (n + 1) n = _
  simp only [encDecGo]
  split
  · rfl
  · rw [encDecGo_irrel n (n / 10 + 1) (n / 10) (by omega) (by omega)]
    rfl

theorem getSizeNatGo_irrel (fuel : Nat) : ∀ fuel2 n : Nat, n < fuel → n < fuel2 →
    getSizeNatGo fuel n = getSizeNatGo fuel2 n := by
  induction fuel with
  | zero => omega
  | succ f ih =>
    intro fuel2 n h h2
    cases fuel2 with
    | zero => omega
    | succ f2 =>
      simp only [getSizeNatGo]
      split
      · rfl
      · rw [ih f2 (n / 10) (by omega) (by omega)]

theorem getSizeNat_eq (n : Nat) :
    getSizeNat n = if n ≤ 9 then 1 else getSizeNat (n / 10) + 1 := by
  show getSizeNatGo (n + 1) n = _
  simp only [getSizeNatGo]
  split
  · rfl
  · rw [getSizeNatGo_irrel n (n / 10 + 1) (n / 10) (by omega) (by omega)]
    rfl

theorem encDec_ne_nil (n : Nat) : encDec n ≠ [] := by
  rw [encDec_eq]
  split <;> simp

theorem encDec_length (n : Nat) : (encDec n).length = getSizeNat n := by
  induction n using Nat.strong_induction_on with
  | _ n ih =>
    rw [encDec_eq, getSizeNat_eq]
    split
    · simp
    · simp [ih (n / 10) (Nat.div_lt_self (by omega) (by omega))]

theorem encDec_all_digits (n : Nat) : ∀ c ∈ encDec n, isnum c = true := by
  induction n using Nat.strong_induction_on with
  | _ n ih =>
    rw [encDec_eq]
    split
    · intro c hc
      simp at hc
      simp [hc, isnum]
      omega
    · intro c hc
      simp at hc
      rcases hc with h | h
      · exact ih (n / 10) (Nat.div_lt_self (by omega) (by omega)) c h
      · simp [h, isnum]
        omega

theorem digitsVal_foldl (s : Nat) (l : List Nat) :
    l.foldl (fun a c => a * 10 + (c - 48)) s = s * 10 ^ l.length + digitsVal l := by
  induction l generalizing s with
  | nil => simp [digitsVal]
  | cons c r ih =>
    simp only [List.foldl_cons, digitsVal]
    rw [ih (s * 10 + (c - 48)), ih (0 * 10 + (c - 48))]
    simp [List.length_cons, Nat.pow_succ]
    ring

theorem digitsVal_append (a b : List Nat) :
    digitsVal (a ++ b) = digitsVal a * 10 ^ b.length + digitsVal b := by
  unfold digitsVal
  rw [List.foldl_append, digitsVal_foldl]
  rfl

theorem digitsVal_encDec (n : Nat) : digitsVal (encDec n) = n := by
  induction n using Nat.strong_induction_on with
  | _ n ih =>
    rw [encDec_eq]
    split
    · simp [digitsVal]
    · rw [digitsVal_append, ih (n / 10) (Nat.div_lt_self (by omega) (by omega))]
      simp [digitsVal]
      omega

theorem encDec_head_ne_48 (n : Nat) (h : 1 ≤ n) :
    ∀ d, (encDec n).head? = some d → d ≠ 48 := by
  induction n using Nat.strong_induction_on with
  | _ n ih =>
    intro d hd
    rw [encDec_eq] at hd
    split at hd
    · simp at hd
      omega
    · rw [List.head?_append] at hd
      have h10 : ¬ n ≤ 9 := by assumption
      have hne := encDec_ne_nil (n / 10)
      cases henc : (encDec (n / 10)).head? with
      | none => exact absurd (List.head?_eq_none_iff.mp henc) hne
      | some d0 =>
        rw [henc] at hd
        simp at hd
        subst hd
        exact ih (n / 10) (Nat.div_lt_self (by omega) (by omega))
          (Nat.one_le_div_iff (by omega) |>.mpr (by omega)) d0 henc

theorem spanDigits_append_digits (d r : List Nat) (hd : ∀ c ∈ d, isnum c = true) :
    spanDigits (d ++ r) = d.length + spanDigits r := by
  induction d with
  | nil => simp
  | cons c rest ih =>
    have hc := hd c (by simp)
    have ih2 := ih (fun x hx => hd x (by simp [hx]))
    simp only [List.cons_append, spanDigits, List.append_eq, hc, if_pos]
    simp [ih2]
    omega

theorem spanDigits_cons_not (c : Nat) (r : List Nat) (h : isnum c = false) :
    spanDigits (c :: r) = 0 := by
  simp [spanDigits, h]

theorem spanDigits_nil : spanDigits [] = 0 := rfl

theorem drop_shift (w : List Nat) (o : Nat) (x r : List Nat) (h : w.drop o = x ++ r) :
    w.drop (o + x.length) = r := by
  rw [← List.drop_drop, h, List.drop_left]

theorem lt_length_of_drop_cons (w : List Nat) (o c : Nat) (r : List Nat)
    (h : w.drop o = c :: r) : o < w.length := by
  by_contra hle
  push_neg at hle
  rw [List.drop_eq_nil_of_le hle] at h
  exact absurd h (by simp)

theorem length_of_drop (w : List Nat) (o : Nat) (l : List Nat)
    (h : w.drop o = l) (ho : o ≤ w.length) : w.length = o + l.length := by
  have hl := congrArg List.length h
  rw [List.length_drop] at hl
  omega

theorem consumeChar_ok (w : List Nat) (o c : Nat) (kd : ParseErrorKind) (r : List Nat)
    (h : w.drop o = c :: r) : consumeChar w o c kd = .ok (o + 1) := by
  simp [consumeChar, currentByte, h]

theorem consumeDecimal_ok (w : List Nat) (o v c : Nat) (r : List Nat)
    (h : w.drop o = encDec v ++ c :: r) (hc : isnum c = false) (hv : v < USIZE) :
    consumeDecimal w o = .ok (v, o + (encDec v).length) := by
  obtain ⟨d, ds, hE⟩ : ∃ d ds, encDec v = d :: ds := by
    cases hE : encDec v with
    | nil => exact absurd hE (encDec_ne_nil v)
    | cons d ds => exact ⟨d, ds, rfl⟩
  have hspan : spanDigits (w.drop o) = (encDec v).length := by
    rw [h, spanDigits_append_digits _ _ (encDec_all_digits v), spanDigits_cons_not _ _ hc]
    omega
  have htake : (w.drop o).take (spanDigits (w.drop o)) = encDec v := by
    rw [hspan, h, List.take_left]
  have hhead : (w.drop o).head? = some d := by
    rw [h, hE]
    rfl
  have hlen1 : 1 ≤ (encDec v).length := by
    rw [hE]
    simp
  have hnolead : ¬ (1 < spanDigits (w.drop o) ∧ d = 48) := by
    rintro ⟨hgt, hd48⟩
    rw [hspan] at hgt
    rcases Nat.eq_zero_or_pos v with hv0 | hv1
    · subst hv0
      have h0 : encDec 0 = [48] := by rw [encDec_eq]; simp
      rw [h0] at hgt
      simp at hgt
    · exact encDec_head_ne_48 v hv1 d (by rw [hE]; rfl) hd48
  rw [hspan] at hnolead
  have htake2 : (w.drop o).take (encDec v).length = encDec v := by
    rw [h, List.take_left]
  rw [consumeDecimal, hhead]
  simp only [hspan, htake2, digitsVal_encDec]
  rw [if_neg (by omega), if_neg hnolead, if_pos hv]

theorem consumeStringContents_ok (w : List Nat) (o : Nat) (a r : List Nat)
    (h : w.drop o = a ++ r) (ho : o ≤ w.length) :
    consumeStringContents w o a.length = .ok (a, o + a.length) := by
  have hlen : w.length = o + (a.length + r.length) := by
    have := length_of_drop w o (a ++ r) h ho
    simp at this
    omega
  rw [consumeStringContents, if_neg (by omega), h, List.take_left]

theorem argChunk_decomp (a r : List Nat) :
    argChunk a ++ r = encDec a.length ++ 58 :: (a ++ 44 :: r) := by
  simp [argChunk]

theorem nextItem_ok (w : List Nat) (o : Nat) (a r : List Nat)
    (h : w.drop o = argChunk a ++ r) (ha : a.length < USIZE) :
    nextItem w o = .ok (a, o + (argChunk a).length) := by
  rw [argChunk_decomp] at h
  have hdec := consumeDecimal_ok w o a.length 58 (a ++ 44 :: r) h (by decide) ha
  have h1 : w.drop (o + (encDec a.length).length) = 58 :: (a ++ 44 :: r) :=
    drop_shift w o (encDec a.length) _ h
  have hcol := consumeChar_ok w (o + (encDec a.length).length) 58 .expectedStringSigil _ h1
  have h2 : w.drop (o + (encDec a.length).length + 1) = a ++ 44 :: r := by
    have := drop_shift w (o + (encDec a.length).length) [58] _ h1
    simpa using this
  have ho2 : o + (encDec a.length).length + 1 ≤ w.length := by
    cases hx : a ++ 44 :: r with
    | nil => simp at hx
    | cons y ys =>
      rw [hx] at h2
      exact Nat.le_of_lt (lt_length_of_drop_cons w _ y ys h2)
  have hcon := consumeStringContents_ok w (o + (encDec a.length).length + 1) a (44 :: r) h2 ho2
  have h3 : w.drop (o + (encDec a.length).length + 1 + a.length) = 44 :: r :=
    drop_shift w (o + (encDec a.length).length + 1) a _ h2
  have hcls := consumeChar_ok w (o + (encDec a.length).length + 1 + a.length) 44
    .expectedStringCloser _ h3
  have hlenc : o + (encDec a.length).length + 1 + a.length + 1 = o + (argChunk a).length := by
    simp [argChunk]
    omega
  simp only [nextItem, hdec, hcol, hcon, hcls, hlenc]

theorem flatten_chunk_cons (a : List Nat) (args : List (List Nat)) :
    ((a :: args).map argChunk).flatten = argChunk a ++ (args.map argChunk).flatten := by
  simp

theorem consumeItems_ok (args : List (List Nat)) (w : List Nat) (o : Nat) (r : List Nat)
    (h : w.drop o = (args.map argChunk).flatten ++ r)
    (ha : ∀ a ∈ args, a.length < USIZE) :
    consumeItems args.length w o =
      .ok (args, o + ((args.map argChunk).flatten).length) := by
  induction args generalizing o with
  | nil =>
    simp at h
    simp [consumeItems]
  | cons a rest ih =>
    rw [flatten_chunk_cons, List.append_assoc] at h
    have hni := nextItem_ok w o a _ h (ha a (by simp))
    have h1 : w.drop (o + (argChunk a).length) = (rest.map argChunk).flatten ++ r :=
      drop_shift w o (argChunk a) _ h
    have hrest := ih (o + (argChunk a).length) h1 (fun x hx => ha x (by simp [hx]))
    simp only [List.length_cons, consumeItems, hni, hrest]
    rw [flatten_chunk_cons]
    simp
    omega

theorem messageParse_formatBytes (t : List Nat) (args : List (List Nat)) (mt : MessageTypeV)
    (hmt : messageTypeParse t = some mt) (hc : args.length + 1 < USIZE)
    (ht : t.length < USIZE) (ha : ∀ a ∈ args, a.length < USIZE) :
    messageParse (formatBytes t args) =
      .ok (⟨mt, args⟩, (formatBytes t args).length) := by
  set w := formatBytes t args with hw
  have h0 : w.drop 0 = [123] ++ (encDec (args.length + 1) ++ 124 ::
      (argChunk t ++ ((args.map argChunk).flatten ++ [125]))) := by
    rw [hw]
    simp [formatBytes]
  have hop := consumeChar_ok w 0 123 .expectedMessageOpener _ h0
  have h1 : w.drop 1 = encDec (args.length + 1) ++ 124 ::
      (argChunk t ++ ((args.map argChunk).flatten ++ [125])) := by
    simpa using drop_shift w 0 [123] _ h0
  have hdec := consumeDecimal_ok w 1 (args.length + 1) 124 _ h1 (by decide) hc
  have h2 : w.drop (1 + (encDec (args.length + 1)).length) = [124] ++
      (argChunk t ++ ((args.map argChunk).flatten ++ [125])) :=
    drop_shift w 1 (encDec (args.length + 1)) _ h1
  have hsig := consumeChar_ok w (1 + (encDec (args.length + 1)).length) 124
    .expectedListSigil _ h2
  have h3 : w.drop (1 + (encDec (args.length + 1)).length + 1) =
      argChunk t ++ ((args.map argChunk).flatten ++ [125]) := by
    simpa using drop_shift w (1 + (encDec (args.length + 1)).length) [124] _ h2
  have hni := nextItem_ok w (1 + (encDec (args.length + 1)).length + 1) t _ h3 ht
  have h4 : w.drop (1 + (encDec (args.length + 1)).length + 1 + (argChunk t).length) =
      (args.map argChunk).flatten ++ [125] :=
    drop_shift w (1 + (encDec (args.length + 1)).length + 1) (argChunk t) _ h3
  have hitems := consumeItems_ok args w
    (1 + (encDec (args.length + 1)).length + 1 + (argChunk t).length) [125] h4 ha
  have h5 : w.drop (1 + (encDec (args.length + 1)).length + 1 + (argChunk t).length +
      ((args.map argChunk).flatten).length) = [125] :=
    drop_shift w _ ((args.map argChunk).flatten) _ h4
  have hcls := consumeChar_ok w (1 + (encDec (args.length + 1)).length + 1 +
    (argChunk t).length + ((args.map argChunk).flatten).length) 125
    .expectedMessageCloser [] h5
  have hwlen : 1 + (encDec (args.length + 1)).length + 1 + (argChunk t).length +
      ((args.map argChunk).flatten).length + 1 = w.length := by
    have hle := Nat.le_of_lt (lt_length_of_drop_cons w _ 125 [] h5)
    have := length_of_drop w _ [125] h5 hle
    rw [show ([125] : List Nat).length = 1 from rfl] at this
    omega
  simp only [messageParse, hop, Nat.zero_add, hdec, hsig, hni, hmt, hitems, hcls, hwlen]

theorem fmtAddAll_spec (args : List (List Nat)) : ∀ out : List Nat,
    fmtAddAll ⟨out, args.length⟩ args =
      some ⟨out ++ (args.map argChunk).flatten, 0⟩ := by
  induction args with
  | nil =>
    intro out
    simp [fmtAddAll]
  | cons a rest ih =>
    intro out
    simp only [fmtAddAll, fmtAddArgument, List.length_cons]
    rw [if_neg (by simp)]
    simp only [Nat.add_sub_cancel]
    rw [ih (out ++ argChunk a)]
    simp

theorem formatMessage_eq (t : List Nat) (args : List (List Nat)) :
    formatMessage t args = some (formatBytes t args) := by
  simp only [formatMessage, fmtNew, fmtAddArgument]
  rw [if_neg (by simp)]
  simp only [Nat.add_sub_cancel]
  rw [fmtAddAll_spec args (([123] ++ encDec (args.length + 1) ++ [124]) ++ argChunk t)]
  simp [fmtFinalize, formatBytes]

/-- Claim C1: for every message built from a valid message type and any
sequence of argument bytestrings (with the count and sizes representable in
`usize`), the `new` / `add_argument`* / `finalize` formatter run succeeds and
produces a byte string that `Message::parse` accepts, yielding the same parsed
type and the same argument byte sequences in the same order, and consuming
exactly the byte count that `finalize` returned (the length of the produced
byte string). -/
theorem c1_format_parse_roundtrip (t : List Nat) (args : List (List Nat))
    (mt : MessageTypeV) (hmt : messageTypeParse t = some mt)
    (ht : t.length < USIZE) (hc : args.length + 1 < USIZE)
    (ha : ∀ a ∈ args, a.length < USIZE) :
    formatMessage t args = some (formatBytes t args) ∧
    messageParse (formatBytes t args) =
      .ok (⟨mt, args⟩, (formatBytes t args).length) :=
  ⟨formatMessage_eq t args, messageParse_formatBytes t args mt hmt hc ht ha⟩

/-- Witness for C1 at the message `want core1`. -/
theorem c1_format_parse_roundtrip_witness :
    formatMessage (strBytes "want") [ strBytes "core1"] =
      some (formatBytes (strBytes "want") [ strBytes "core1"]) ∧
    messageParse (formatBytes (strBytes "want") [ strBytes "core1"]) =
      .ok (⟨.want, [ strBytes "core1"]⟩,
        (formatBytes (strBytes "want") [ strBytes "core1"]).length) :=
  c1_format_parse_roundtrip (strBytes "want") [ strBytes "core1"] .want
    (by decide) (by decide) (by decide) (by decide)

theorem spanDigits_take (l : List Nat) : ∀ m : Nat,
    spanDigits (l.take m) = min (spanDigits l) m := by
  induction l with
  | nil => intro m; simp [spanDigits]
  | cons c r ih =>
    intro m
    cases m with
    | zero => simp [spanDigits]
    | succ m2 =>
      simp only [List.take_succ_cons, spanDigits]
      cases hc : isnum c with
      | true => simp [ih m2]; omega
      | false => simp

theorem head?_take (l : List Nat) (m : Nat) (h : 1 ≤ m) :
    (l.take m).head? = l.head? := by
  cases l with
  | nil => simp
  | cons c r =>
    cases m with
    | zero => omega
    | succ m2 => simp

theorem digitsVal_take_le (l : List Nat) (m : Nat) :
    digitsVal (l.take m) ≤ digitsVal l := by
  conv_rhs => rw [← List.take_append_drop m l]
  rw [digitsVal_append]
  have h1 : 1 ≤ 10 ^ (l.drop m).length := Nat.one_le_pow _ _ (by omega)
  have h2 := Nat.mul_le_mul_left (digitsVal (l.take m)) h1
  omega

theorem drop_head?_eq_cons (w : List Nat) (o c : Nat) (h : (w.drop o).head? = some c) :
    ∃ r, w.drop o = c :: r := by
  cases hE : w.drop o with
  | nil => rw [hE] at h; simp at h
  | cons x r =>
    rw [hE] at h
    simp at h
    exact ⟨r, by rw [h]⟩

theorem consumeChar_ok_inv (w : List Nat) (o c o2 : Nat) (kd : ParseErrorKind)
    (h : consumeChar w o c kd = .ok o2) :
    o2 = o + 1 ∧ (w.drop o).head? = some c := by
  unfold consumeChar currentByte at h
  cases hE : (w.drop o).head? with
  | none => rw [hE] at h; simp at h
  | some b =>
    rw [hE] at h
    simp only at h
    by_cases hbc : b = c
    · subst hbc
      rw [if_pos rfl] at h
      simp at h
      exact ⟨by omega, rfl⟩
    · rw [if_neg hbc] at h
      simp at h

theorem consumeChar_ok_le (w : List Nat) (o c o2 : Nat) (kd : ParseErrorKind)
    (h : consumeChar w o c kd = .ok o2) : o < o2 ∧ o2 ≤ w.length := by
  obtain ⟨h1, h2⟩ := consumeChar_ok_inv w o c o2 kd h
  obtain ⟨r, hr⟩ := drop_head?_eq_cons w o c h2
  have := lt_length_of_drop_cons w o c r hr
  omega

theorem consumeDecimal_ok_inv (w : List Nat) (o v o2 : Nat)
    (h : consumeDecimal w o = .ok (v, o2)) :
    o2 = o + spanDigits (w.drop o) ∧ 1 ≤ spanDigits (w.drop o) ∧
    v = digitsVal ((w.drop o).take (spanDigits (w.drop o))) ∧ v < USIZE ∧
    ¬ (1 < spanDigits (w.drop o) ∧ (w.drop o).head? = some 48) ∧
    o < w.length := by
  unfold consumeDecimal at h
  cases hE : (w.drop o).head? with
  | none => rw [hE] at h; simp at h
  | some c0 =>
    obtain ⟨r, hr⟩ := drop_head?_eq_cons w o c0 hE
    have hlen := lt_length_of_drop_cons w o c0 r hr
    rw [hE] at h
    simp only at h
    split at h
    · simp at h
    · split at h
      · simp at h
      · split at h
        · simp at h
          rename_i hnz hlead _
          refine ⟨by omega, by omega, by rw [← h.1], by rw [← h.1]; assumption, ?_, hlen⟩
          rintro ⟨hgt, hc⟩
          simp only [Option.some.injEq] at hc
          exact hlead ⟨hgt, hc⟩
        · simp at h

theorem consumeDecimal_ok_le (w : List Nat) (o v o2 : Nat)
    (h : consumeDecimal w o = .ok (v, o2)) : o < o2 ∧ o2 ≤ w.length := by
  obtain ⟨h1, h2, _, _, _, h6⟩ := consumeDecimal_ok_inv w o v o2 h
  have hsp : spanDigits (w.drop o) ≤ (w.drop o).length := by
    clear h1 h2
    induction (w.drop o) with
    | nil => simp [spanDigits]
    | cons c r ih =>
      simp only [spanDigits]
      split <;> simp
      omega
  rw [List.length_drop] at hsp
  omega

theorem consumeStringContents_ok_inv (w : List Nat) (o count : Nat) (a : List Nat) (o2 : Nat)
    (h : consumeStringContents w o count = .ok (a, o2)) :
    o2 = o + count ∧ o + count ≤ w.length ∧ a = (w.drop o).take count := by
  unfold consumeStringContents at h
  split at h
  · simp at h
  · simp at h
    refine ⟨by omega, by omega, by rw [h.1]⟩

theorem consumeChar_trunc (w : List Nat) (o c o2 k : Nat) (kd : ParseErrorKind)
    (h : consumeChar w o c kd = .ok o2) (hok : o ≤ k) :
    (o2 ≤ k → consumeChar (w.take k) o c kd = .ok o2) ∧
    (k < o2 → consumeChar (w.take k) o c kd = .error ⟨k, .unexpectedEOF⟩) := by
  obtain ⟨ho2, hhead⟩ := consumeChar_ok_inv w o c o2 kd h
  subst ho2
  have hdt : (w.take k).drop o = (w.drop o).take (k - o) := List.drop_take ..
  by_cases hk : o + 1 ≤ k
  · refine ⟨fun _ => ?_, fun h2 => by omega⟩
    have hh : ((w.take k).drop o).head? = some c := by
      rw [hdt, head?_take _ _ (by omega), hhead]
    unfold consumeChar currentByte
    rw [hh]
    simp
  · have hko : o = k := by omega
    subst hko
    refine ⟨fun h2 => by omega, fun _ => ?_⟩
    have hh : ((w.take o).drop o).head? = none := by
      rw [hdt, Nat.sub_self]
      simp
    unfold consumeChar currentByte
    rw [hh]

theorem consumeDecimal_trunc (w : List Nat) (o v o2 k : Nat)
    (h : consumeDecimal w o = .ok (v, o2)) (hok : o ≤ k) :
    (o2 ≤ k → consumeDecimal (w.take k) o = .ok (v, o2)) ∧
    (k < o2 → (o = k ∧ consumeDecimal (w.take k) o = .error ⟨k, .unexpectedEOF⟩) ∨
      (o < k ∧ ∃ v2, consumeDecimal (w.take k) o = .ok (v2, k))) := by
  obtain ⟨ho2, hs1, hv, hvU, hnl, how⟩ := consumeDecimal_ok_inv w o v o2 h
  have hdt : (w.take k).drop o = (w.drop o).take (k - o) := List.drop_take ..
  have hspan : spanDigits ((w.take k).drop o) =
      min (spanDigits (w.drop o)) (k - o) := by
    rw [hdt, spanDigits_take]
  obtain ⟨c0, hE⟩ : ∃ c0, (w.drop o).head? = some c0 := by
    cases hW : w.drop o with
    | nil =>
      rw [hW] at hs1
      simp [spanDigits] at hs1
    | cons x r => exact ⟨x, rfl⟩
  have hnl2 : ¬ (1 < spanDigits (w.drop o) ∧ c0 = 48) := by
    rintro ⟨ha, hb⟩
    exact hnl ⟨ha, by rw [hE, hb]⟩
  constructor
  · intro hle
    have hsk : spanDigits (w.drop o) ≤ k - o := by omega
    have hh : ((w.take k).drop o).head? = some c0 := by
      rw [hdt, head?_take _ _ (by omega), hE]
    have hsp2 : spanDigits ((w.take k).drop o) = spanDigits (w.drop o) := by
      rw [hspan]
      omega
    have htk : ((w.take k).drop o).take (spanDigits (w.drop o)) =
        (w.drop o).take (spanDigits (w.drop o)) := by
      rw [hdt, List.take_take]
      congr 1
      omega
    unfold consumeDecimal
    rw [hh]
    simp only [hsp2, htk]
    rw [if_neg (by omega), if_neg hnl2, if_pos (by rw [← hv]; exact hvU), ← hv]
    rw [ho2]
  · intro hgt
    by_cases hko : o = k
    · subst hko
      left
      refine ⟨rfl, ?_⟩
      have hh : ((w.take o).drop o).head? = none := by
        rw [hdt, Nat.sub_self]
        simp
      unfold consumeDecimal
      rw [hh]
    · right
      have holt : o < k := by omega
      have hsk : k - o < spanDigits (w.drop o) := by omega
      have hh : ((w.take k).drop o).head? = some c0 := by
        rw [hdt, head?_take _ _ (by omega), hE]
      have hsp2 : spanDigits ((w.take k).drop o) = k - o := by
        rw [hspan]
        omega
      have htk : ((w.take k).drop o).take (k - o) =
          ((w.drop o).take (spanDigits (w.drop o))).take (k - o) := by
        rw [hdt, List.take_take, List.take_take]
        congr 1
        omega
      have hv2 : digitsVal (((w.take k).drop o).take (k - o)) < USIZE := by
        rw [htk]
        calc digitsVal (((w.drop o).take (spanDigits (w.drop o))).take (k - o)) ≤
            digitsVal ((w.drop o).take (spanDigits (w.drop o))) := digitsVal_take_le _ _
          _ < USIZE := by rw [← hv]; exact hvU
      have hnl3 : ¬ (1 < k - o ∧ c0 = 48) := by
        rintro ⟨ha, hb⟩
        exact hnl2 ⟨by omega, hb⟩
      refine ⟨holt, digitsVal (((w.take k).drop o).take (k - o)), ?_⟩
      unfold consumeDecimal
      rw [hh]
      simp only [hsp2]
      rw [if_neg (by omega), if_neg hnl3, if_pos hv2]
      have hko2 : o + (k - o) = k := by omega
      rw [hko2]

theorem consumeStringContents_trunc (w : List Nat) (o count : Nat) (a : List Nat)
    (o2 k : Nat) (h : consumeStringContents w o count = .ok (a, o2))
    (hok : o ≤ k) (hkw : k ≤ w.length) :
    (o2 ≤ k → consumeStringContents (w.take k) o count = .ok (a, o2)) ∧
    (k < o2 → consumeStringContents (w.take k) o count = .error ⟨k, .unexpectedEOF⟩) := by
  obtain ⟨ho2, hle, ha⟩ := consumeStringContents_ok_inv w o count a o2 h
  have hlen : (w.take k).length = k := by
    rw [List.length_take]
    omega
  have hdt : (w.take k).drop o = (w.drop o).take (k - o) := List.drop_take ..
  constructor
  · intro hlek
    have hslice : ((w.take k).drop o).take count = (w.drop o).take count := by
      rw [hdt, List.take_take]
      congr 1
      omega
    unfold consumeStringContents
    rw [hlen, if_neg (by omega), hslice, ← ha, ho2]
  · intro hgtk
    unfold consumeStringContents
    rw [hlen, if_pos (by omega)]

theorem nextItem_trunc (w : List Nat) (o : Nat) (s : List Nat) (o2 k : Nat)
    (h : nextItem w o = .ok (s, o2)) (hok : o ≤ k) (hkw : k ≤ w.length) :
    (o2 ≤ k → nextItem (w.take k) o = .ok (s, o2)) ∧
    (k < o2 → nextItem (w.take k) o = .error ⟨k, .unexpectedEOF⟩) := by
  unfold nextItem at h
  cases hdec : consumeDecimal w o with
  | error e => rw [hdec] at h; simp at h
  | ok p =>
    obtain ⟨count, o1⟩ := p
    rw [hdec] at h
    simp only at h
    cases hcol : consumeChar w o1 58 .expectedStringSigil with
    | error e => rw [hcol] at h; simp at h
    | ok oA =>
      rw [hcol] at h
      simp only at h
      cases hcon : consumeStringContents w oA count with
      | error e => rw [hcon] at h; simp at h
      | ok q =>
        obtain ⟨s3, oB⟩ := q
        rw [hcon] at h
        simp only at h
        cases hcls : consumeChar w oB 44 .expectedStringCloser with
        | error e => rw [hcls] at h; simp at h
        | ok oC =>
          rw [hcls] at h
          simp at h
          obtain ⟨hs3, hoC⟩ := h
          rw [hs3] at hcon
          rw [hoC] at hcls
          -- offset ordering facts
          have hb1 := consumeDecimal_ok_le w o count o1 hdec
          have hb2 := consumeChar_ok_le w o1 58 oA .expectedStringSigil hcol
          have hb3 := consumeStringContents_ok_inv w oA count s oB hcon
          have hb4 := consumeChar_ok_le w oB 44 o2 .expectedStringCloser hcls
          have hdt := consumeDecimal_trunc w o count o1 k hdec hok
          constructor
          · intro hle
            have h1 := hdt.1 (by omega)
            have h2 := (consumeChar_trunc w o1 58 oA k .expectedStringSigil hcol
              (by omega)).1 (by omega)
            have h3 := (consumeStringContents_trunc w oA count s oB k hcon
              (by omega) hkw).1 (by omega)
            have h4 := (consumeChar_trunc w oB 44 o2 k .expectedStringCloser hcls
              (by omega)).1 (by omega)
            unfold nextItem
            rw [h1]
            simp only
            rw [h2]
            simp only
            rw [h3]
            simp only
            rw [h4]
          · intro hgt
            by_cases hc1 : k < o1
            · -- truncation hits the decimal
              rcases hdt.2 hc1 with ⟨hoe, herr⟩ | ⟨holt, v2, hok2⟩
              · unfold nextItem
                rw [herr]
              · -- decimal succeeds at k, the sigil then hits EOF
                unfold nextItem
                rw [hok2]
                simp only
                have hcc : consumeChar (w.take k) k 58 .expectedStringSigil =
                    .error ⟨k, .unexpectedEOF⟩ := by
                  unfold consumeChar currentByte
                  have : ((w.take k).drop k).head? = none := by
                    rw [List.drop_take]
                    simp [Nat.sub_self]
                  rw [this]
                rw [hcc]
            · push_neg at hc1
              have h1 := hdt.1 hc1
              by_cases hc2 : k < oA
              · have h2 := (consumeChar_trunc w o1 58 oA k .expectedStringSigil hcol
                  (by omega)).2 hc2
                unfold nextItem
                rw [h1]
                simp only
                rw [h2]
              · push_neg at hc2
                have h2 := (consumeChar_trunc w o1 58 oA k .expectedStringSigil hcol
                  (by omega)).1 hc2
                by_cases hc3 : k < oB
                · have h3 := (consumeStringContents_trunc w oA count s oB k hcon
                    (by omega) hkw).2 hc3
                  unfold nextItem
                  rw [h1]
                  simp only
                  rw [h2]
                  simp only
                  rw [h3]
                · push_neg at hc3
                  have h3 := (consumeStringContents_trunc w oA count s oB k hcon
                    (by omega) hkw).1 hc3
                  have h4 := (consumeChar_trunc w oB 44 o2 k .expectedStringCloser hcls
                    (by omega)).2 hgt
                  unfold nextItem
                  rw [h1]
                  simp only
                  rw [h2]
                  simp only
                  rw [h3]
                  simp only
                  rw [h4]

theorem consumeChar_at_end (w : List Nat) (k c : Nat) (kd : ParseErrorKind) :
    consumeChar (w.take k) k c kd = .error ⟨k, .unexpectedEOF⟩ := by
  unfold consumeChar currentByte
  have hnil : (w.take k).drop k = [] := by
    apply List.drop_eq_nil_of_le
    rw [List.length_take]
    omega
  rw [hnil]
  rfl

theorem nextItem_ok_le (w : List Nat) (o : Nat) (s : List Nat) (o2 : Nat)
    (h : nextItem w o = .ok (s, o2)) : o < o2 ∧ o2 ≤ w.length := by
  unfold nextItem at h
  cases hdec : consumeDecimal w o with
  | error e => rw [hdec] at h; simp at h
  | ok p =>
    obtain ⟨count, o1⟩ := p
    rw [hdec] at h
    simp only at h
    cases hcol : consumeChar w o1 58 .expectedStringSigil with
    | error e => rw [hcol] at h; simp at h
    | ok oA =>
      rw [hcol] at h
      simp only at h
      cases hcon : consumeStringContents w oA count with
      | error e => rw [hcon] at h; simp at h
      | ok q =>
        obtain ⟨s3, oB⟩ := q
        rw [hcon] at h
        simp only at h
        cases hcls : consumeChar w oB 44 .expectedStringCloser with
        | error e => rw [hcls] at h; simp at h
        | ok oC =>
          rw [hcls] at h
          simp at h
          have hb1 := consumeDecimal_ok_le w o count o1 hdec
          have hb2 := consumeChar_ok_le w o1 58 oA .expectedStringSigil hcol
          have hb3 := consumeStringContents_ok_inv w oA count s3 oB hcon
          have hb4 := consumeChar_ok_le w oB 44 oC .expectedStringCloser hcls
          omega

theorem consumeItems_ok_le (cnt : Nat) : ∀ (w : List Nat) (o : Nat)
    (ss : List (List Nat)) (o2 : Nat), consumeItems cnt w o = .ok (ss, o2) → o ≤ o2 := by
  induction cnt with
  | zero =>
    intro w o ss o2 h
    unfold consumeItems at h
    simp at h
    omega
  | succ c2 ih =>
    intro w o ss o2 h
    unfold consumeItems at h
    cases hni : nextItem w o with
    | error e => rw [hni] at h; simp at h
    | ok p =>
      obtain ⟨s1, oM⟩ := p
      rw [hni] at h
      simp only at h
      cases hrest : consumeItems c2 w oM with
      | error e => rw [hrest] at h; simp at h
      | ok q =>
        obtain ⟨ss1, oE⟩ := q
        rw [hrest] at h
        simp at h
        have h1 := nextItem_ok_le w o s1 oM hni
        have h2 := ih w oM ss1 oE hrest
        omega

theorem consumeItems_trunc (cnt : Nat) : ∀ (w : List Nat) (o : Nat)
    (ss : List (List Nat)) (o2 k : Nat), consumeItems cnt w o = .ok (ss, o2) →
    o ≤ k → k ≤ w.length →
    (o2 ≤ k → consumeItems cnt (w.take k) o = .ok (ss, o2)) ∧
    (k < o2 → consumeItems cnt (w.take k) o = .error ⟨k, .unexpectedEOF⟩) := by
  induction cnt with
  | zero =>
    intro w o ss o2 k h hok hkw
    unfold consumeItems at h
    simp at h
    constructor
    · intro _
      unfold consumeItems
      rw [h.1, h.2]
    · intro hgt
      omega
  | succ c2 ih =>
    intro w o ss o2 k h hok hkw
    unfold consumeItems at h
    cases hni : nextItem w o with
    | error e => rw [hni] at h; simp at h
    | ok p =>
      obtain ⟨s1, oM⟩ := p
      rw [hni] at h
      simp only at h
      cases hrest : consumeItems c2 w oM with
      | error e => rw [hrest] at h; simp at h
      | ok q =>
        obtain ⟨ss1, oE⟩ := q
        rw [hrest] at h
        simp at h
        obtain ⟨hss, hoE⟩ := h
        rw [hoE] at hrest
        have hb1 := nextItem_ok_le w o s1 oM hni
        have hb2 := consumeItems_ok_le c2 w oM ss1 o2 hrest
        constructor
        · intro hle
          have h1 := (nextItem_trunc w o s1 oM k hni hok hkw).1 (by omega)
          have h2 := (ih w oM ss1 o2 k hrest (by omega) hkw).1 hle
          unfold consumeItems
          rw [h1]
          simp only
          rw [h2, ← hss]
        · intro hgt
          by_cases hcM : k < oM
          · have h1 := (nextItem_trunc w o s1 oM k hni hok hkw).2 hcM
            unfold consumeItems
            rw [h1]
          · push_neg at hcM
            have h1 := (nextItem_trunc w o s1 oM k hni hok hkw).1 hcM
            have h2 := (ih w oM ss1 o2 k hrest (by omega) hkw).2 hgt
            unfold consumeItems
            rw [h1]
            simp only
            rw [h2]

theorem messageParse_trunc (w : List Nat) (m : MessageV) (n k : Nat)
    (h : messageParse w = .ok (m, n)) (hk : k < n) :
    messageParse (w.take k) = .error ⟨k, .unexpectedEOF⟩ := by
  unfold messageParse at h
  cases hop : consumeChar w 0 123 .expectedMessageOpener with
  | error e => rw [hop] at h; simp at h
  | ok o0 =>
    rw [hop] at h
    simp only at h
    cases hdec : consumeDecimal w o0 with
    | error e => rw [hdec] at h; simp at h
    | ok p =>
      obtain ⟨cntI, o1⟩ := p
      rw [hdec] at h
      simp only at h
      cases hsig : consumeChar w o1 124 .expectedListSigil with
      | error e => rw [hsig] at h; simp at h
      | ok o2 =>
        rw [hsig] at h
        simp only at h
        cases cntI with
        | zero => simp at h
        | succ cnt =>
          simp only at h
          cases hni : nextItem w o2 with
          | error e => rw [hni] at h; simp at h
          | ok q =>
            obtain ⟨t, o3⟩ := q
            rw [hni] at h
            simp only at h
            cases hmt : messageTypeParse t with
            | none => rw [hmt] at h; simp at h
            | some mt =>
              rw [hmt] at h
              simp only at h
              cases hit : consumeItems cnt w o3 with
              | error e => rw [hit] at h; simp at h
              | ok r2 =>
                obtain ⟨args, o4⟩ := r2
                rw [hit] at h
                simp only at h
                cases hcls : consumeChar w o4 125 .expectedMessageCloser with
                | error e => rw [hcls] at h; simp at h
                | ok o5 =>
                  rw [hcls] at h
                  simp at h
                  obtain ⟨hm, ho5⟩ := h
                  rw [ho5] at hcls
                  have hb0 := consumeChar_ok_le w 0 123 _ .expectedMessageOpener hop
                  have hb1 := consumeDecimal_ok_le w o0 _ o1 hdec
                  have hb2 := consumeChar_ok_le w o1 124 _ .expectedListSigil hsig
                  have hb3 := nextItem_ok_le w o2 t o3 hni
                  have hb4 := consumeItems_ok_le cnt w o3 args o4 hit
                  have hb5 := consumeChar_ok_le w o4 125 _ .expectedMessageCloser hcls
                  have hkw : k ≤ w.length := by omega
                  by_cases hc0 : k < o0
                  · have h1 := (consumeChar_trunc w 0 123 o0 k _ hop (by omega)).2 hc0
                    unfold messageParse
                    rw [h1]
                  · push_neg at hc0
                    have h1 := (consumeChar_trunc w 0 123 o0 k _ hop (by omega)).1 hc0
                    by_cases hc1 : k < o1
                    · rcases (consumeDecimal_trunc w o0 _ o1 k hdec hc0).2 hc1 with
                        ⟨heq, herr⟩ | ⟨hlt, v2, hok2⟩
                      · unfold messageParse
                        rw [h1]
                        simp only
                        rw [herr]
                      · unfold messageParse
                        rw [h1]
                        simp only
                        rw [hok2]
                        simp only
                        rw [consumeChar_at_end w k 124 .expectedListSigil]
                    · push_neg at hc1
                      have h2 := (consumeDecimal_trunc w o0 _ o1 k hdec hc0).1 hc1
                      by_cases hc2 : k < o2
                      · have h3 := (consumeChar_trunc w o1 124 o2 k _ hsig (by omega)).2 hc2
                        unfold messageParse
                        rw [h1]
                        simp only
                        rw [h2]
                        simp only
                        rw [h3]
                      · push_neg at hc2
                        have h3 := (consumeChar_trunc w o1 124 o2 k _ hsig (by omega)).1 hc2
                        by_cases hc3 : k < o3
                        · have h4 := (nextItem_trunc w o2 t o3 k hni (by omega) hkw).2 hc3
                          unfold messageParse
                          rw [h1]
                          simp only
                          rw [h2]
                          simp only
                          rw [h3]
                          simp only
                          rw [h4]
                        · push_neg at hc3
                          have h4 := (nextItem_trunc w o2 t o3 k hni (by omega) hkw).1 hc3
                          by_cases hc4 : k < o4
                          · have h5 := (consumeItems_trunc cnt w o3 args o4 k hit
                              (by omega) hkw).2 hc4
                            unfold messageParse
                            rw [h1]
                            simp only
                            rw [h2]
                            simp only
                            rw [h3]
                            simp only
                            rw [h4]
                            simp only
                            rw [hmt]
                            simp only
                            rw [h5]
                          · push_neg at hc4
                            have h5 := (consumeItems_trunc cnt w o3 args o4 k hit
                              (by omega) hkw).1 hc4
                            have h6 := (consumeChar_trunc w o4 125 n k _ hcls
                              (by omega)).2 hk
                            unfold messageParse
                            rw [h1]
                            simp only
                            rw [h2]
                            simp only
                            rw [h3]
                            simp only
                            rw [h4]
                            simp only
                            rw [hmt]
                            simp only
                            rw [h5]
                            simp only
                            rw [h6]

theorem messageParse_ok_le (w : List Nat) (m : MessageV) (n : Nat)
    (h : messageParse w = .ok (m, n)) : 1 ≤ n ∧ n ≤ w.length := by
  unfold messageParse at h
  cases hop : consumeChar w 0 123 .expectedMessageOpener with
  | error e => rw [hop] at h; simp at h
  | ok o0 =>
    rw [hop] at h
    simp only at h
    cases hdec : consumeDecimal w o0 with
    | error e => rw [hdec] at h; simp at h
    | ok p =>
      obtain ⟨cntI, o1⟩ := p
      rw [hdec] at h
      simp only at h
      cases hsig : consumeChar w o1 124 .expectedListSigil with
      | error e => rw [hsig] at h; simp at h
      | ok o2 =>
        rw [hsig] at h
        simp only at h
        cases cntI with
        | zero => simp at h
        | succ cnt =>
          simp only at h
          cases hni : nextItem w o2 with
          | error e => rw [hni] at h; simp at h
          | ok q =>
            obtain ⟨t, o3⟩ := q
            rw [hni] at h
            simp only at h
            cases hmt : messageTypeParse t with
            | none => rw [hmt] at h; simp at h
            | some mt =>
              rw [hmt] at h
              simp only at h
              cases hit : consumeItems cnt w o3 with
              | error e => rw [hit] at h; simp at h
              | ok r2 =>
                obtain ⟨args, o4⟩ := r2
                rw [hit] at h
                simp only at h
                cases hcls : consumeChar w o4 125 .expectedMessageCloser with
                | error e => rw [hcls] at h; simp at h
                | ok o5 =>
                  rw [hcls] at h
                  simp at h
                  obtain ⟨hm, ho5⟩ := h
                  rw [ho5] at hcls
                  have hb0 := consumeChar_ok_le w 0 123 _ .expectedMessageOpener hop
                  have hb5 := consumeChar_ok_le w o4 125 _ .expectedMessageCloser hcls
                  have hb1 := consumeDecimal_ok_le w o0 _ o1 hdec
                  have hb2 := consumeChar_ok_le w o1 124 _ .expectedListSigil hsig
                  have hb3 := nextItem_ok_le w o2 t o3 hni
                  have hb4 := consumeItems_ok_le cnt w o3 args o4 hit
                  omega

/-- Claim C5: for every valid encoded message (an input on which
`Message::parse` succeeds, consuming `n` bytes) and every strict prefix of the
encoded message (`p = w.take k` with `k < n`), parsing the prefix returns a
`ParseError` whose kind is `UnexpectedEOF` and whose offset equals the
prefix's length `k`. -/
theorem c5_prefix_parse_unexpected_eof (w : List Nat) (m : MessageV) (n k : Nat)
    (h : messageParse w = .ok (m, n)) (hk : k < n) :
    (w.take k).length = k ∧
    messageParse (w.take k) = .error ⟨k, .unexpectedEOF⟩ := by
  have hb := messageParse_ok_le w m n h
  refine ⟨?_, messageParse_trunc w m n k h hk⟩
  rw [List.length_take]
  omega

/-- Witness for C5: the 5-byte strict prefix of `{2|4:want,5:core1,}`. -/
theorem c5_prefix_parse_unexpected_eof_witness :
    ((strBytes "\x7b2|4:want,5:core1,\x7d").take 5).length = 5 ∧
    messageParse ((strBytes "\x7b2|4:want,5:core1,\x7d").take 5) =
      .error ⟨5, .unexpectedEOF⟩ :=
  c5_prefix_parse_unexpected_eof (strBytes "\x7b2|4:want,5:core1,\x7d")
    ⟨.want, [ strBytes "core1"]⟩ 19 5 (by decide) (by decide)

theorem handleIncomingFuel_teardown (app : AppV) (fuel : Nat) (c : ConnV)
    (buf : List Nat) (h : c.state = .teardown) :
    handleIncomingFuel app fuel c buf = (c, buf) := by
  cases fuel with
  | zero => rfl
  | succ f =>
    unfold handleIncomingFuel
    split
    · rfl
    · rw [h]

theorem resyncLen_pos (buf : List Nat) (h : buf ≠ []) : 1 ≤ resyncLen buf := by
  unfold resyncLen
  cases hF : (buf.drop 1).findIdx? (fun b => b == 123) with
  | none =>
    simp only
    cases buf with
    | nil => exact absurd rfl h
    | cons x r => simp
  | some i => simp

theorem handleIncomingFuel_irrel (app : AppV) : ∀ (fuel fuel2 : Nat) (c : ConnV)
    (buf : List Nat), buf.length < fuel → buf.length < fuel2 →
    handleIncomingFuel app fuel c buf = handleIncomingFuel app fuel2 c buf := by
  intro fuel
  induction fuel with
  | zero => omega
  | succ f ih =>
    intro fuel2 c buf hf hf2
    cases fuel2 with
    | zero => omega
    | succ f2 =>
      by_cases hbuf : buf = []
      · subst hbuf
        rfl
      · have hlen : 1 ≤ buf.length := by
          cases buf with
          | nil => exact absurd rfl hbuf
          | cons x r => simp
        unfold handleIncomingFuel
        rw [if_neg hbuf, if_neg hbuf]
        cases hst : c.state with
        | handshake =>
          cases hp : messageParse buf with
          | ok p =>
            obtain ⟨m, n⟩ := p
            have hb := messageParse_ok_le buf m n hp
            simp only
            rw [ih f2 _ (buf.drop n) (by simp [List.length_drop]; omega)
              (by simp [List.length_drop]; omega)]
          | error e =>
            simp only
            split
            · rfl
            · have hr := resyncLen_pos buf hbuf
              rw [ih f2 _ (buf.drop (processParseError c buf).2)]
              · simp only [processParseError]
                rw [List.length_drop]
                omega
              · simp only [processParseError]
                rw [List.length_drop]
                omega
        | msgio id =>
          cases hp : messageParse buf with
          | ok p =>
            obtain ⟨m, n⟩ := p
            have hb := messageParse_ok_le buf m n hp
            simp only
            rw [ih f2 _ (buf.drop n) (by simp [List.length_drop]; omega)
              (by simp [List.length_drop]; omega)]
          | error e =>
            simp only
            split
            · rfl
            · have hr := resyncLen_pos buf hbuf
              rw [ih f2 _ (buf.drop (processParseError c buf).2)]
              · simp only [processParseError]
                rw [List.length_drop]
                omega
              · simp only [processParseError]
                rw [List.length_drop]
                omega
        | stdin sc => rfl
        | stdout rcv => rfl
        | teardown => rfl

theorem handleIncoming_step_parse_ok (app : AppV) (c : ConnV) (buf : List Nat)
    (m : MessageV) (n : Nat) (hp : messageParse buf = .ok (m, n)) (hbuf : buf ≠ []) :
    (c.state = .handshake →
      handleIncoming app c buf =
        handleIncoming app (processHandled true m (handshakeHandle app m c) c) (buf.drop n)) ∧
    (∀ identity, c.state = .msgio identity →
      handleIncoming app c buf =
        handleIncoming app (processHandled false m (coreHandle app m c) c) (buf.drop n)) := by
  have hlen : 1 ≤ buf.length := by
    cases buf with
    | nil => exact absurd rfl hbuf
    | cons x r => simp
  have hb := messageParse_ok_le buf m n hp
  constructor
  · intro hst
    show handleIncomingFuel app (buf.length + 1) c buf = _
    unfold handleIncomingFuel
    rw [if_neg hbuf, hst]
    simp only [hp]
    exact handleIncomingFuel_irrel app buf.length ((buf.drop n).length + 1) _ (buf.drop n)
      (by rw [List.length_drop]; omega) (by omega)
  · intro identity hst
    show handleIncomingFuel app (buf.length + 1) c buf = _
    unfold handleIncomingFuel
    rw [if_neg hbuf, hst]
    simp only [hp]
    exact handleIncomingFuel_irrel app buf.length ((buf.drop n).length + 1) _ (buf.drop n)
      (by rw [List.length_drop]; omega) (by omega)

theorem handleIncoming_step_parse_error (app : AppV) (c : ConnV) (buf : List Nat)
    (e : ParseError) (hp : messageParse buf = .error e) (hk : e.kind ≠ .unexpectedEOF)
    (hbuf : buf ≠ []) :
    (c.state = .handshake →
      handleIncoming app c buf =
        handleIncoming app
          { c with state := .teardown
                   notifications := c.notifications ++
                     [.incomingBytesDiscarded (buf.take (resyncLen buf))] }
          (buf.drop (resyncLen buf))) ∧
    (∀ identity, c.state = .msgio identity →
      handleIncoming app c buf =
        handleIncoming app
          { c with notifications := c.notifications ++
              [.incomingBytesDiscarded (buf.take (resyncLen buf))] }
          (buf.drop (resyncLen buf))) := by
  have hlen : 1 ≤ buf.length := by
    cases buf with
    | nil => exact absurd rfl hbuf
    | cons x r => simp
  have hr := resyncLen_pos buf hbuf
  constructor
  · intro hst
    show handleIncomingFuel app (buf.length + 1) c buf = _
    unfold handleIncomingFuel
    rw [if_neg hbuf, hst]
    simp only [hp]
    rw [if_neg hk]
    have hpe : processParseError c buf =
        ({ c with state := .teardown
                  notifications := c.notifications ++
                    [.incomingBytesDiscarded (buf.take (resyncLen buf))] }, resyncLen buf) := by
      simp [processParseError, hst]
    rw [hpe]
    simp only
    apply handleIncomingFuel_irrel
    · rw [List.length_drop]
      omega
    · rw [List.length_drop]
      omega
  · intro identity hst
    show handleIncomingFuel app (buf.length + 1) c buf = _
    unfold handleIncomingFuel
    rw [if_neg hbuf, hst]
    simp only [hp]
    rw [if_neg hk]
    have hpe : processParseError c buf =
        ({ c with notifications := c.notifications ++
            [.incomingBytesDiscarded (buf.take (resyncLen buf))] }, resyncLen buf) := by
      simp [processParseError, hst]
    rw [hpe]
    simp only
    rw [hst]
    apply handleIncomingFuel_irrel
    · rw [List.length_drop]
      omega
    · rw [List.length_drop]
      omega

theorem handleIncoming_teardown (app : AppV) (c : ConnV) (buf : List Nat)
    (h : c.state = .teardown) : handleIncoming app c buf = (c, buf) :=
  handleIncomingFuel_teardown app _ c buf h

theorem processHandled_error_handshake (m : MessageV) (e : HandlerErrorV) (c : ConnV) :
    processHandled true m (.error e) c = { c with state := .teardown } := by
  cases e <;> rfl

/-- Claim C2: on a connection in state Msgio (with the modeled handler chain:
the vt6/core message handler over the baseline reject terminator), handling
`{2|4:want,5:core1,}` enqueues exactly `{2|4:have,7:core1.0,}` (the core
handler supports module core1 at minor version 0), and handling
`{2|4:want,4:foo9,}` enqueues exactly the negative reply `{2|4:have,4:foo9,}`;
and in general, a message whose scoped type is unknown to the chain gets the
baseline reply `have <module>.<supported-minor>` when the module is supported
and `have <module>` otherwise (`encodeHave` applied to the chain's
`get_supported_module_version` answer). -/
theorem c2_want_have_negotiation :
    (handleIncoming noApp (freshConn (.msgio sampleIdentity))
        (strBytes "\x7b2|4:want,5:core1,\x7d") =
      (⟨.msgio sampleIdentity, [ strBytes "\x7b2|4:have,7:core1.0,\x7d"], [], []⟩, [])) ∧
    (handleIncoming noApp (freshConn (.msgio sampleIdentity))
        (strBytes "\x7b2|4:want,4:foo9,\x7d") =
      (⟨.msgio sampleIdentity, [ strBytes "\x7b2|4:have,4:foo9,\x7d"], [], []⟩, [])) ∧
    (∀ (app : AppV) (c : ConnV) (m : MessageV) (s : ScopedIdentV),
      m.type = .scoped s →
      s.source ≠ strBytes "want" →
      s.source ≠ strBytes "core1.client-make" →
      s.source ≠ strBytes "core1.lifetime-end" →
      processHandled false m (coreHandle app m c) c =
        enqueueMessage c (encodeHave s.modId (chainSupported s.modId.source))) := by
  refine ⟨by decide, by decide, ?_⟩
  intro app c m s hms h1 h2 h3
  have hstr : msgTypeStr m.type = s.source := by
    rw [hms]
    rfl
  have hch : coreHandle app m c = .error .unknownMessageType := by
    unfold coreHandle
    rw [hstr, if_neg h1, if_neg h2, if_neg h3]
  rw [hch]
  unfold processHandled
  rw [hms]

/-- Witness for C2's general branch at the unknown scoped type `foo9.bar`. -/
theorem c2_want_have_negotiation_witness :
    processHandled false
        ⟨.scoped ⟨ strBytes "foo9.bar", ⟨ strBytes "foo9", strBytes "foo", 9⟩,
          strBytes "bar"⟩, []⟩
        (coreHandle noApp
          ⟨.scoped ⟨ strBytes "foo9.bar", ⟨ strBytes "foo9", strBytes "foo", 9⟩,
            strBytes "bar"⟩, []⟩
          (freshConn (.msgio sampleIdentity)))
        (freshConn (.msgio sampleIdentity)) =
      enqueueMessage (freshConn (.msgio sampleIdentity))
        (encodeHave ⟨ strBytes "foo9", strBytes "foo", 9⟩
          (chainSupported (strBytes "foo9"))) :=
  c2_want_have_negotiation.2.2 noApp (freshConn (.msgio sampleIdentity))
    ⟨.scoped ⟨ strBytes "foo9.bar", ⟨ strBytes "foo9", strBytes "foo", 9⟩,
      strBytes "bar"⟩, []⟩
    ⟨ strBytes "foo9.bar", ⟨ strBytes "foo9", strBytes "foo", 9⟩, strBytes "bar"⟩
    rfl (by decide) (by decide) (by decide)

/-- Claim C3: on a fresh connection in state Handshake, if the incoming bytes
parse to a message that the handshake handler chain rejects (any handler
error, including a rejected secret), or fail to parse with any error other
than UnexpectedEOF, then the connection ends up in state Teardown and no
response bytes are enqueued on it. -/
theorem c3_handshake_failure_fatal (app : AppV) (buf : List Nat)
    (h : (∃ m n e, messageParse buf = .ok (m, n) ∧
            handshakeHandle app m (freshConn .handshake) = .error e) ∨
         (∃ e, messageParse buf = .error e ∧ e.kind ≠ .unexpectedEOF)) :
    (handleIncoming app (freshConn .handshake) buf).1.state = .teardown ∧
    (handleIncoming app (freshConn .handshake) buf).1.sent = [] := by
  have hbuf : buf ≠ [] := by
    intro hB
    subst hB
    have hPE : messageParse ([] : List Nat) = .error ⟨0, .unexpectedEOF⟩ := by decide
    rcases h with ⟨m, n, e, hp, _⟩ | ⟨e, hp, hk⟩
    · rw [hPE] at hp
      exact absurd hp (by simp)
    · rw [hPE] at hp
      simp only [Except.error.injEq] at hp
      apply hk
      rw [← hp]
  rcases h with ⟨m, n, e, hp, he⟩ | ⟨e, hp, hk⟩
  · rw [(handleIncoming_step_parse_ok app _ buf m n hp hbuf).1 rfl, he,
      processHandled_error_handshake,
      handleIncoming_teardown app _ _ rfl]
    exact ⟨rfl, rfl⟩
  · rw [(handleIncoming_step_parse_error app _ buf e hp hk hbuf).1 rfl,
      handleIncoming_teardown app _ _ rfl]
    exact ⟨rfl, rfl⟩

/-- Witness for C3: `posix1.client-hello` with a secret the application
rejects. -/
theorem c3_handshake_failure_fatal_witness :
    (handleIncoming noApp (freshConn .handshake)
      (strBytes "\x7b2|19:posix1.client-hello,3:bad,\x7d")).1.state = .teardown ∧
    (handleIncoming noApp (freshConn .handshake)
      (strBytes "\x7b2|19:posix1.client-hello,3:bad,\x7d")).1.sent = [] :=
  c3_handshake_failure_fatal noApp (strBytes "\x7b2|19:posix1.client-hello,3:bad,\x7d")
    (Or.inl ⟨⟨.scoped ⟨ strBytes "posix1.client-hello",
        ⟨ strBytes "posix1", strBytes "posix", 1⟩, strBytes "client-hello"⟩,
      [ strBytes "bad"]⟩, 33, .invalidMessage, by decide, by decide⟩)

/-- Claim C8: Teardown is absorbing: `handle_incoming` on a Teardown
connection consumes no input and changes nothing, and every step of the
modeled connection/dispatcher step relation (incoming bytes, broadcast
execution, maintenance sweep) leaves a Teardown connection in Teardown. -/
theorem c8_teardown_absorbing (app : AppV) (c : ConnV) (h : c.state = .teardown) :
    (∀ buf, handleIncoming app c buf = (c, buf)) ∧
    (∀ c2, ConnStep app c c2 → c2.state = .teardown) := by
  refine ⟨fun buf => handleIncoming_teardown app c buf h, ?_⟩
  intro c2 hstep
  cases hstep with
  | incoming buf =>
    rw [handleIncoming_teardown app c buf h]
    exact h
  | broadcast b =>
    cases b with
    | teardownAtOrBelow cid =>
      simp only [runBroadcast, h]
  | maintenance => exact h

/-- Witness for C8 on a concrete Teardown connection and buffer. -/
theorem c8_teardown_absorbing_witness :
    handleIncoming noApp (freshConn .teardown) (strBytes "\x7b2|4:want,5:core1,\x7d") =
      (freshConn .teardown, strBytes "\x7b2|4:want,5:core1,\x7d") :=
  (c8_teardown_absorbing noApp (freshConn .teardown) rfl).1
    (strBytes "\x7b2|4:want,5:core1,\x7d")

/-- Counterexample for C4 as stated: for the input `garbage{1|4:want,` on a
Msgio connection, the discarded slice `garbage` is 7 bytes, not 8; and after
`5:core1,}` arrives, the resulting buffer `{1|4:want,5:core1,}` (argument
count 1) is itself a parse error, so the `want` message is not handled
normally: no reply is enqueued and the whole message is discarded. -/
theorem c4_parse_error_resync_counterexample :
    (handleIncoming noApp (freshConn (.msgio sampleIdentity))
        (strBytes "garbage\x7b1|4:want,")).1.notifications =
      [.incomingBytesDiscarded (strBytes "garbage")] ∧
    (strBytes "garbage").length = 7 ∧ (strBytes "garbage").length ≠ 8 ∧
    (handleIncoming noApp
        (handleIncoming noApp (freshConn (.msgio sampleIdentity))
          (strBytes "garbage\x7b1|4:want,")).1
        ((handleIncoming noApp (freshConn (.msgio sampleIdentity))
          (strBytes "garbage\x7b1|4:want,")).2 ++ strBytes "5:core1,\x7d")).1.sent
      = [] := by
  refine ⟨by decide, by decide, by decide, by decide⟩

/-- Claim C4 (amended): when `handle_incoming` meets a parse error other than
UnexpectedEOF on a Msgio connection, it emits an IncomingBytesDiscarded
notification carrying exactly the first `n` bytes, discards exactly those `n`
bytes (`n` being the position of the next `{` strictly after offset 0, or the
whole buffer if there is none — `resyncLen`), and continues on the rest.  In
particular, for the input `garbage{2|4:want,` the discarded slice is
`garbage` (7 bytes, up to and not including `{`), and after `5:core1,}`
arrives the `want` message is handled normally. -/
theorem c4_parse_error_resync_amended :
    (∀ (app : AppV) (c : ConnV) (identity : ClientIdentityV) (buf : List Nat)
      (e : ParseError), c.state = .msgio identity → messageParse buf = .error e →
      e.kind ≠ .unexpectedEOF → buf ≠ [] →
      handleIncoming app c buf =
        handleIncoming app
          { c with notifications := c.notifications ++
              [.incomingBytesDiscarded (buf.take (resyncLen buf))] }
          (buf.drop (resyncLen buf))) ∧
    (resyncLen (strBytes "garbage\x7b2|4:want,") = 7 ∧
      (strBytes "garbage\x7b2|4:want,").take 7 = strBytes "garbage") ∧
    (handleIncoming noApp (freshConn (.msgio sampleIdentity))
        (strBytes "garbage\x7b2|4:want,") =
      (⟨.msgio sampleIdentity, [],
        [.incomingBytesDiscarded (strBytes "garbage")], []⟩,
        strBytes "\x7b2|4:want,")) ∧
    ((handleIncoming noApp
        ⟨.msgio sampleIdentity, [], [.incomingBytesDiscarded (strBytes "garbage")], []⟩
        (strBytes "\x7b2|4:want," ++ strBytes "5:core1,\x7d")).1.sent =
      [ strBytes "\x7b2|4:have,7:core1.0,\x7d"]) := by
  refine ⟨?_, by decide, by decide, by decide⟩
  intro app c identity buf e h1 h2 h3 h4
  exact (handleIncoming_step_parse_error app c buf e h2 h3 h4).2 identity h1

/-- Witness for C4 (amended) at the `garbage{2|4:want,` input. -/
theorem c4_parse_error_resync_amended_witness :
    handleIncoming noApp (freshConn (.msgio sampleIdentity))
        (strBytes "garbage\x7b2|4:want,") =
      handleIncoming noApp
        { freshConn (.msgio sampleIdentity) with notifications :=
            (freshConn (.msgio sampleIdentity)).notifications ++
              [.incomingBytesDiscarded ((strBytes "garbage\x7b2|4:want,").take
                (resyncLen (strBytes "garbage\x7b2|4:want,")))] }
        ((strBytes "garbage\x7b2|4:want,").drop
          (resyncLen (strBytes "garbage\x7b2|4:want,"))) :=
  c4_parse_error_resync_amended.1 noApp (freshConn (.msgio sampleIdentity))
    sampleIdentity (strBytes "garbage\x7b2|4:want,")
    ⟨0, .expectedMessageOpener⟩ rfl (by decide) (by decide) (by decide)

/-- Counterexample for C6 as stated: in `{01|10:sig1.claim,}` the leading zero
sits at offset 1, so "the position immediately after the leading zero" is
offset 2; the parser however reports `DecimalNumberHasLeadingZeroes` at offset
3, just past the end of the whole digit run (this matches the crate's own test
`expect_parse_fails(b"{01|10:sig1.claim,}", 3, ...)`). -/
theorem c6_leading_zero_offset_counterexample :
    messageParse (strBytes "\x7b01|10:sig1.claim,\x7d") =
      .error ⟨3, .decimalNumberHasLeadingZeroes⟩ ∧ (3 : Nat) ≠ 1 + 1 := by
  refine ⟨by decide, by decide⟩

/-- Claim C6 (amended): whenever `Cursor::consume_decimal` runs at an offset
holding a digit run of length at least two that starts with `0`, it returns a
`DecimalNumberHasLeadingZeroes` error whose offset is the position immediately
after the **last** digit of the run (offset plus run length), not the position
immediately after the leading zero. -/
theorem c6_leading_zero_offset_amended (w : List Nat) (o : Nat)
    (h0 : (w.drop o).head? = some 48) (h2 : 2 ≤ spanDigits (w.drop o)) :
    consumeDecimal w o =
      .error ⟨o + spanDigits (w.drop o), .decimalNumberHasLeadingZeroes⟩ := by
  unfold consumeDecimal
  rw [h0]
  simp only
  rw [if_neg (by omega), if_pos ⟨by omega, trivial⟩]

/-- Witness for C6 (amended) at the count numeral of `{01|10:sig1.claim,}`. -/
theorem c6_leading_zero_offset_amended_witness :
    consumeDecimal (strBytes "\x7b01|10:sig1.claim,\x7d") 1 =
      .error ⟨1 + spanDigits ((strBytes "\x7b01|10:sig1.claim,\x7d").drop 1),
        .decimalNumberHasLeadingZeroes⟩ :=
  c6_leading_zero_offset_amended (strBytes "\x7b01|10:sig1.claim,\x7d") 1
    (by decide) (by decide)

theorem encNumberGo_length (k : Nat) : ∀ n, (encNumberGo n k).length = k := by
  induction k with
  | zero => intro n; rfl
  | succ k2 ih =>
    intro n
    unfold encNumberGo
    split <;> simp [ih]

theorem encNumber_length (num : Nat) :
    (encNumber num).length = getSizeForNumber num := by
  unfold encNumber
  rw [encNumberGo_length]

/-- Counterexample for C9 as stated: at n = 121 the code's
`get_size_for_number` yields 3 symbols (the encoding is `zz0`), while
`⌈log₆₁(n+2)⌉ = ⌈log₆₁ 123⌉ = 2`. -/
theorem c9_suffix_length_counterexample :
    getSizeForNumber 121 = 3 ∧ Nat.clog 61 (121 + 2) = 2 ∧ (3 : Nat) ≠ 2 := by
  refine ⟨by decide, ?_, by decide⟩
  show Nat.clog 61 123 = 2
  have h1 : Nat.clog 61 123 ≤ 2 := by
    rw [← Nat.le_pow_iff_clog_le (by norm_num)]
    norm_num
  have h2 : ¬ Nat.clog 61 123 ≤ 1 := by
    rw [← Nat.le_pow_iff_clog_le (by norm_num)]
    norm_num
  omega

/-- Claim C9 (amended): for every number n encoded inside a ClientIDSuffix,
the encoded length is `1 + ((n + 1) mod 2³²) / 61` symbols — linear in n, not
`⌈log₆₁(n+2)⌉` — drawn from the 62-symbol alphabet `[0-9A-Za-z]` whose last
symbol `z` acts as a continuation marker; `Local(n)` additionally carries the
prefix `0`, and `Child(i, j)` is the concatenation of the two number
encodings. -/
theorem c9_suffix_number_encoding_amended (n i j : Nat) :
    (encNumber n).length = getSizeForNumber n ∧
    getSizeForNumber n = 1 + ((n + 1) % U32) / 61 ∧
    suffixEncode (.localLifetime i) = 48 :: encNumber i ∧
    suffixEncode (.child i j) = encNumber i ++ encNumber j :=
  ⟨encNumber_length n, rfl, rfl, rfl⟩

theorem lookupByte_valid : ∀ n, n < 62 → isClientIdChar (lookupByte n) = true := by
  decide

theorem encNumberGo_chars (k : Nat) : ∀ n, ∀ c ∈ encNumberGo n k,
    isClientIdChar c = true := by
  induction k with
  | zero =>
    intro n c hc
    simp [encNumberGo] at hc
  | succ k2 ih =>
    intro n c hc
    unfold encNumberGo at hc
    split at hc
    · rw [List.mem_cons] at hc
      rcases hc with hc | hc
      · rw [hc]
        decide
      · exact ih (n - 61) c hc
    · rw [List.mem_cons] at hc
      rcases hc with hc | hc
      · rw [hc]
        exact lookupByte_valid n (by omega)
      · exact ih n c hc

theorem encNumber_chars (num : Nat) : ∀ c ∈ encNumber num, isClientIdChar c = true :=
  encNumberGo_chars _ _

theorem suffixEncode_length (s : ClientIDSuffixV) :
    (suffixEncode s).length = suffixSize s := by
  cases s <;> simp [suffixEncode, suffixSize, encNumber_length] <;> omega

theorem suffixEncode_chars (s : ClientIDSuffixV) :
    ∀ c ∈ suffixEncode s, isClientIdChar c = true := by
  cases s with
  | own => intro c hc; simp [suffixEncode] at hc
  | localLifetime i =>
    intro c hc
    simp only [suffixEncode, List.mem_cons] at hc
    rcases hc with hc | hc
    · rw [hc]
      decide
    · exact encNumber_chars i c hc
  | job i => exact encNumber_chars i
  | child i j =>
    intro c hc
    simp only [suffixEncode, List.mem_append] at hc
    rcases hc with hc | hc
    · exact encNumber_chars i c hc
    · exact encNumber_chars j c hc

theorem clientIDParse_some_inv (l : List Nat) (h : clientIDParse l = some l) :
    l ≠ [] ∧ l.all isClientIdChar = true := by
  unfold clientIDParse at h
  split at h
  · simp at h
  · split at h
    · exact ⟨by assumption, by assumption⟩
    · simp at h

/-- Claim C10: for every valid base ClientID and every ClientIDSuffix (Own,
Local, Job, Child at any index values), the encoding of `suffix.below(base)`
writes exactly `get_size()` bytes and the result is itself a valid ClientID —
nonempty, all ASCII letters and digits — so `ClientID::parse` accepts every
derived client ID the encoder can produce. -/
theorem c10_relative_client_id_valid (base : List Nat) (s : ClientIDSuffixV)
    (hb : clientIDParse base = some base) :
    (relativeEncode base s).length = relativeSize base s ∧
    clientIDParse (relativeEncode base s) = some (relativeEncode base s) := by
  obtain ⟨hne, hall⟩ := clientIDParse_some_inv base hb
  constructor
  · simp [relativeEncode, relativeSize, suffixEncode_length]
  · unfold clientIDParse relativeEncode
    rw [if_neg (by simp [hne]), if_pos ?_]
    rw [List.all_append, hall, Bool.true_and, List.all_eq_true]
    exact suffixEncode_chars s

/-- Witness for C10 at base `foo` with suffix `Child(61, 121)`. -/
theorem c10_relative_client_id_valid_witness :
    (relativeEncode (strBytes "foo") (.child 61 121)).length =
      relativeSize (strBytes "foo") (.child 61 121) ∧
    clientIDParse (relativeEncode (strBytes "foo") (.child 61 121)) =
      some (relativeEncode (strBytes "foo") (.child 61 121)) :=
  c10_relative_client_id_valid (strBytes "foo") (.child 61 121) (by decide)

theorem allDigits_encDec (n : Nat) : allDigits (encDec n) = true := by
  simp only [allDigits, List.all_eq_true]
  exact encDec_all_digits n

theorem encDec_head_digit (n : Nat) :
    ∀ d, (encDec n).head? = some d → isnum d = true := by
  intro d hd
  cases he : encDec n with
  | nil => exact absurd he (encDec_ne_nil n)
  | cons c r =>
    rw [he] at hd
    simp only [List.head?_cons, Option.some.injEq] at hd
    rw [← hd]
    exact encDec_all_digits n c (by rw [he]; exact List.mem_cons_self c r)

theorem decodeIntDigits_encDec_pos (lo hi : Int) (n : Nat)
    (h1 : lo ≤ (n : Int)) (h2 : (n : Int) ≤ hi) :
    decodeIntDigits lo hi false (encDec n) = some (n : Int) := by
  simp [decodeIntDigits, encDec_ne_nil n, allDigits_encDec n, digitsVal_encDec, h1, h2]

theorem decodeIntDigits_encDec_neg (lo hi : Int) (n : Nat)
    (h1 : lo ≤ -(n : Int)) (h2 : -(n : Int) ≤ hi) :
    decodeIntDigits lo hi true (encDec n) = some (-(n : Int)) := by
  simp [decodeIntDigits, encDec_ne_nil n, allDigits_encDec n, digitsVal_encDec, h1, h2]

theorem decodeInt_encInt (allowNeg : Bool) (lo hi : Int) (v : Int)
    (hneg : v < 0 → allowNeg = true) (hlo : lo ≤ v) (hhi : v ≤ hi) :
    decodeInt allowNeg lo hi (encInt v) = some v := by
  by_cases hv : v < 0
  · have hva : -((v.natAbs : Int)) = v := by omega
    unfold encInt
    rw [if_pos hv]
    simp only [List.cons_append, List.nil_append]
    unfold decodeInt
    rw [if_neg (by simp), if_neg (by simp), if_neg (by simp), if_pos (List.head?_cons),
      if_pos (hneg hv)]
    simp only [List.drop_succ_cons, List.drop_zero]
    rw [decodeIntDigits_encDec_neg lo hi v.natAbs (by omega) (by omega), hva]
  · have hva : ((v.natAbs : Int)) = v := by omega
    unfold encInt
    rw [if_neg hv]
    simp only [List.nil_append]
    unfold decodeInt
    rw [if_neg (encDec_ne_nil v.natAbs)]
    rw [if_neg ?hc2]
    case hc2 =>
      rintro ⟨hne48, hh48⟩
      by_cases h0 : v.natAbs = 0
      · exact hne48 (by rw [h0]; rfl)
      · exact encDec_head_ne_48 v.natAbs (by omega) 48 hh48 rfl
    cases hh : (encDec v.natAbs).head? with
    | none => exact absurd (List.head?_eq_none_iff.mp hh) (encDec_ne_nil _)
    | some d =>
      have hd : isnum d = true := encDec_head_digit v.natAbs d hh
      simp only [isnum, Bool.and_eq_true, decide_eq_true_eq] at hd
      rw [if_neg ?hc3, if_neg ?hc4]
      case hc3 =>
        simp only [Option.some.injEq]
        omega
      case hc4 =>
        simp only [Option.some.injEq]
        omega
      rw [decodeIntDigits_encDec_pos lo hi v.natAbs (by omega) (by omega), hva]

theorem encInt_length (v : Int) : (encInt v).length = getSizeInt v := by
  by_cases hv : v < 0 <;> simp [encInt, getSizeInt, hv, encDec_length]

/-- Claim C7 counterexample: the round trip fails for one representable value
of a supported type, `Some("")` at type `Option<&str>`.  `encode` maps both
`None` and `Some("")` to the empty bytestring, and `decode_argument` maps the
empty bytestring back to `None`, so `decode(encode(Some(""))) = Some(None)`,
not `Some(Some(""))`. -/
theorem c7_argument_codec_roundtrip_counterexample :
    decodeOpt decodeStr (encOpt (fun s => s) (some ([] : List Nat))) = some none ∧
    (some none : Option (Option (List Nat))) ≠ some (some ([] : List Nat)) := by
  decide

/-- Claim C7 (amended): for bools, integers (any of the twelve Rust integer
instantiations, i.e. any range `[lo, hi]` around the value with `-` accepted
exactly when signed), strings, bytestrings, and `Option`s of these whose
inner encoding is nonempty — so every `Option` value except `Some("")` /
`Some(b"")` — decode of encode returns the value, and the encoding occupies
exactly `get_size()` bytes; bools decode only from the literal bytes `t` and
`f`; and the integer decoders reject the empty string, `"042"`, `" 42"`, and
the overlong UTF-8 sequence `0xC0 0xB1`, as does the `&str` decoder. -/
theorem c7_argument_codec_roundtrip_amended :
    (∀ b : Bool, decodeBool (encBool b) = some b ∧ (encBool b).length = 1) ∧
    (∀ l b, decodeBool l = some b → l = encBool b) ∧
    (∀ allowNeg lo hi (v : Int), (v < 0 → allowNeg = true) → lo ≤ v → v ≤ hi →
      decodeInt allowNeg lo hi (encInt v) = some v) ∧
    (∀ v : Int, (encInt v).length = getSizeInt v) ∧
    (∀ v : Int, -(2 ^ 7) ≤ v → v ≤ 2 ^ 7 - 1 → decodeI8 (encInt v) = some v) ∧
    (∀ v : Int, 0 ≤ v → v ≤ 2 ^ 64 - 1 → decodeU64 (encInt v) = some v) ∧
    (∀ l, utf8Valid l = true → decodeStr l = some l) ∧
    (∀ l, decodeBytes l = some l) ∧
    (∀ (dec : List Nat → Option (List Nat)) (enc : List Nat → List Nat),
      decodeOpt dec (encOpt enc none) = some none) ∧
    (∀ (dec : List Nat → Option (List Nat)) (enc : List Nat → List Nat) v,
      enc v ≠ [] → dec (enc v) = some v →
      decodeOpt dec (encOpt enc (some v)) = some (some v)) ∧
    (∀ allowNeg lo hi, decodeInt allowNeg lo hi [] = none) ∧
    (∀ allowNeg lo hi, decodeInt allowNeg lo hi (strBytes "042") = none) ∧
    (∀ allowNeg lo hi, decodeInt allowNeg lo hi (strBytes " 42") = none) ∧
    (∀ allowNeg lo hi, decodeInt allowNeg lo hi [192, 177] = none) ∧
    decodeStr [192, 177] = none := by
  refine ⟨?_, ?_, ?_, ?_, ?_, ?_, ?_, ?_, ?_, ?_, ?_, ?_, ?_, ?_, ?_⟩
  · intro b
    cases b <;> exact ⟨rfl, rfl⟩
  · intro l b h
    simp only [decodeBool] at h
    split at h
    next h1 =>
      injection h with h2
      subst h2
      rw [h1]
      rfl
    next =>
      split at h
      next h2 =>
        injection h with h3
        subst h3
        rw [h2]
        rfl
      next =>
        exact absurd h (by simp)
  · exact decodeInt_encInt
  · exact encInt_length
  · intro v h1 h2
    exact decodeInt_encInt true (-(2 ^ 7)) (2 ^ 7 - 1) v (fun _ => rfl) h1 h2
  · intro v h1 h2
    exact decodeInt_encInt false 0 (2 ^ 64 - 1) v (fun hc => absurd hc (by omega)) h1 h2
  · intro l h
    simp [decodeStr, h]
  · intro l
    rfl
  · intro dec enc
    rfl
  · intro dec enc v hne hdec
    simp only [decodeOpt, encOpt]
    rw [if_neg hne, hdec]
  · intro allowNeg lo hi
    rfl
  · intro allowNeg lo hi
    rfl
  · intro allowNeg lo hi
    rfl
  · intro allowNeg lo hi
    rfl
  · rfl

/-- Witness for C7 (amended) at concrete values: `true`, `-5 : i8`,
`12345 : u64`, `-42 : i16`, the string `hi`, `Some("hi")`, and the rejected
input `042` for `u8`. -/
theorem c7_argument_codec_roundtrip_amended_witness :
    decodeBool (encBool true) = some true ∧
    decodeI8 (encInt (-5)) = some (-5) ∧
    decodeU64 (encInt 12345) = some 12345 ∧
    decodeInt true (-(2 ^ 15)) (2 ^ 15 - 1) (encInt (-42)) = some (-42) ∧
    (encInt (-42)).length = getSizeInt (-42) ∧
    decodeStr (strBytes "hi") = some (strBytes "hi") ∧
    decodeOpt decodeStr (encOpt (fun s => s) (some (strBytes "hi"))) =
      some (some (strBytes "hi")) ∧
    decodeInt false 0 255 (strBytes "042") = none := by
  obtain ⟨hb, hbc, hint, hlen, hi8, hu64, hstr, hbytes, hon, hos, hnil, h042, h42s, hutf, hsu⟩ :=
    c7_argument_codec_roundtrip_amended
  refine ⟨(hb true).1, hi8 (-5) (by decide) (by decide),
    hu64 12345 (by decide) (by decide),
    hint true (-(2 ^ 15)) (2 ^ 15 - 1) (-42) (fun _ => rfl) (by decide) (by decide),
    hlen (-42), hstr (strBytes "hi") (by decide),
    hos decodeStr (fun s => s) (strBytes "hi") (by decide) (hstr (strBytes "hi") (by decide)),
    h042 false 0 255⟩
